import Mathlib

set_option maxHeartbeats 1000000

/-! Formal model of the sbt language hook of pre-commit
(src/pre_commit/languages/sbt.py) and proofs about its LSP message
framing, request correlation and command interpolation.

Modelling conventions:
* Python byte and character streams are modelled as `List Char`.  All wire
  traffic produced by this client is ASCII, where bytes and characters
  coincide; inbound bytes are decoded as UTF-8 by the source before use.
* Python exceptions are modelled by the `PyErr` type; fallible code
  returns `Except PyErr`.
* JSON documents are modelled by the inductive type `Json`.  The standard
  library calls json.dumps and json.loads are modelled by `jsonDumps` and
  `jsonLoads`, including the default ensure_ascii escaping of json.dumps
  and the whitespace tolerance of json.loads.  JSON numbers are modelled
  as integers only: every number this client emits or inspects (id,
  result.exitCode, error.code, Content-Length) is integral.
* The stateful asyncio StreamReader is modelled by explicit state
  passing: a reading function consumes a `List Char` (or a list of parsed
  messages) and returns the unread remainder together with its result. -/

/-- Python exceptions raised by the modelled code. -/
inductive PyErr where
  | keyError (key : String)
  | typeError (msg : String)
  | valueError (msg : String)
  | incompleteRead
  | blockedForever
  deriving DecidableEq, Repr

/-- Model of the JSON documents exchanged with sbt server (`JsonType` in
the source). -/
inductive Json where
  | null
  | bool (b : Bool)
  | num (n : Int)
  | str (s : String)
  | arr (elems : List Json)
  | obj (fields : List (String × Json))

/-- Lookup in a Python dict modelled as an association list in insertion
order; a later binding of the same key overrides an earlier one, exactly
as in a Python dict built by repeated insertion. -/
def dictGet (fields : List (String × Json)) (key : String) : Option Json :=
  List.foldl (fun acc kv => if kv.1 = key then some kv.2 else acc) none fields

/-- ASCII decimal digit test (codepoints 48 to 57). -/
def isDigitCh (c : Char) : Bool := 48 ≤ c.toNat && c.toNat ≤ 57

/-- The characters Python str.strip removes by default. -/
def isPySpace (c : Char) : Bool :=
  c.toNat = 32 || c.toNat = 9 || c.toNat = 10 || c.toNat = 13 ||
  c.toNat = 11 || c.toNat = 12

/-- The whitespace characters the JSON grammar allows between tokens. -/
def isJsonWs (c : Char) : Bool :=
  c.toNat = 32 || c.toNat = 9 || c.toNat = 10 || c.toNat = 13

/-- The ASCII character of a decimal digit. -/
def digitCh (d : Nat) : Char := Char.ofNat (48 + d)

/-- Decimal digits of a natural number, most significant first, prepended
to an accumulator; this is how Python's str renders a nonnegative int. -/
def natReprAux (n : Nat) (acc : List Char) : List Char :=
  if n < 10 then digitCh n :: acc
  else natReprAux (n / 10) (digitCh (n % 10) :: acc)
termination_by n
decreasing_by exact Nat.div_lt_self (by omega) (by omega)

/-- Decimal representation of a natural number. -/
def natRepr (n : Nat) : List Char := natReprAux n []

/-- Decimal representation of a Python int, as produced by str and by
json.dumps. -/
def intRepr : Int → List Char
  | .ofNat n => natRepr n
  | .negSucc m => '-' :: natRepr (m + 1)

/-- Value of a string of decimal digits (Python int() on a digit string). -/
def digitsToNat (l : List Char) : Nat :=
  List.foldl (fun acc c => acc * 10 + (c.toNat - 48)) 0 l

/-- Number of bytes Python's UTF-8 encoder uses for one character. -/
def pyUtf8Size (c : Char) : Nat :=
  if c.toNat ≤ 127 then 1 else if c.toNat ≤ 2047 then 2
  else if c.toNat ≤ 65535 then 3 else 4

/-- Byte length of a character sequence under UTF-8, i.e. the Python
length of the UTF-8 encoding of the corresponding str. -/
def utf8Len (l : List Char) : Nat := List.foldr (fun c acc => pyUtf8Size c + acc) 0 l

/-- Lowercase hexadecimal digit character, as Python's json module emits
in backslash-u escapes. -/
def hexDigitCh (n : Nat) : Char :=
  if n < 10 then Char.ofNat (48 + n) else Char.ofNat (87 + n)

/-- Four lowercase hex digits of a number below 2^16. -/
def hex4 (n : Nat) : List Char :=
  [hexDigitCh (n / 4096 % 16), hexDigitCh (n / 256 % 16),
   hexDigitCh (n / 16 % 16), hexDigitCh (n % 16)]

/-- Value of one hexadecimal digit character, accepting both cases. -/
def hexVal (c : Char) : Option Nat :=
  if 48 ≤ c.toNat ∧ c.toNat ≤ 57 then some (c.toNat - 48)
  else if 97 ≤ c.toNat ∧ c.toNat ≤ 102 then some (c.toNat - 87)
  else if 65 ≤ c.toNat ∧ c.toNat ≤ 70 then some (c.toNat - 55)
  else none

/-- Escape one character the way Python json.dumps does with its default
ensure_ascii=True: quote, backslash and the common control characters use
their two-character escapes, every other character outside printable
ASCII becomes a backslash-u escape, and astral characters become a UTF-16
surrogate pair of two such escapes. -/
def escapeChar (c : Char) : List Char :=
  if c = '"' then ['\\', '"']
  else if c = '\\' then ['\\', '\\']
  else if c = '\n' then ['\\', 'n']
  else if c = '\r' then ['\\', 'r']
  else if c = '\t' then ['\\', 't']
  else if c.toNat = 8 then ['\\', 'b']
  else if c.toNat = 12 then ['\\', 'f']
  else if 32 ≤ c.toNat ∧ c.toNat ≤ 126 then [c]
  else if c.toNat < 65536 then '\\' :: 'u' :: hex4 c.toNat
  else '\\' :: 'u' :: hex4 (55296 + (c.toNat - 65536) / 1024) ++
       '\\' :: 'u' :: hex4 (56320 + (c.toNat - 65536) % 1024)

/-- Escape every character of a string body. -/
def escList (l : List Char) : List Char := (l.map escapeChar).flatten

/-- Serialization of a JSON string: quoted, with escaping. -/
def encodeString (s : String) : List Char := '"' :: (escList s.data ++ ['"'])

mutual

/-- Model of Python json.dumps with its default separators (comma-space
and colon-space) and default ensure_ascii=True. -/
def jsonDumps : Json → List Char
  | .null => "null".data
  | .bool true => "true".data
  | .bool false => "false".data
  | .num i => intRepr i
  | .str s => encodeString s
  | .arr xs => '[' :: (dumpElems xs ++ [']'])
  | .obj fs => '\x7b' :: (dumpMembers fs ++ ['\x7d'])

/-- Comma-space separated rendering of array elements. -/
def dumpElems : List Json → List Char
  | [] => []
  | [v] => jsonDumps v
  | v :: w :: rest => jsonDumps v ++ ',' :: ' ' :: dumpElems (w :: rest)

/-- Comma-space separated rendering of object members, each as quoted key,
colon, space, value. -/
def dumpMembers : List (String × Json) → List Char
  | [] => []
  | [(k, v)] => encodeString k ++ ':' :: ' ' :: jsonDumps v
  | (k, v) :: kv :: rest =>
      encodeString k ++ ':' :: ' ' :: jsonDumps v ++ ',' :: ' ' :: dumpMembers (kv :: rest)

end

/-- Python loose equality of a JSON value against an int, as in the
source's comparison of message.get('id') with task_id: numbers compare by
value and a Python bool equals its numeric value (json true is Python
True, and True == 1 holds in Python); every other value, including an
absent one, is unequal. -/
def pyEqInt (v : Json) (t : Int) : Bool :=
  match v with
  | .num n => n == t
  | .bool b => (if b then (1 : Int) else 0) == t
  | _ => false

/-- Source sbt.py lines 253 to 262: a message indicates completion when
its id entry equals the task id under Python equality. -/
def is_completion_message (message : List (String × Json)) (task_id : Int) : Bool :=
  match dictGet message "id" with
  | some v => pyEqInt v task_id
  | none => false

/-- Python subscription of a JSON value by a string key: KeyError when the
value is a dict lacking the key, TypeError when it is not a dict. -/
def jsonSubscript (v : Json) (key : String) : Except PyErr Json :=
  match v with
  | .obj fs =>
    match dictGet fs key with
    | some x => .ok x
    | none => .error (.keyError key)
  | _ => .error (.typeError "value is not subscriptable by a string key")

/-- Source sbt.py lines 265 to 274: take result.exitCode when a result
entry is present, else error.code.  Python performs no type check on the
extracted value, so the model returns it as a JSON value; a message with
neither entry raises KeyError on the error subscription. -/
def return_code (completion_msg : List (String × Json)) : Except PyErr Json :=
  match dictGet completion_msg "result" with
  | some v => jsonSubscript v "exitCode"
  | none =>
    match dictGet completion_msg "error" with
    | some v => jsonSubscript v "code"
    | none => .error (.keyError "error")

/-- One transcript line: json.dumps of a message plus a newline, as
written to the BytesIO buffer in sbt.py line 199. -/
def transcriptLine (m : List (String × Json)) : List Char :=
  jsonDumps (.obj m) ++ ['\n']

/-- The transcript of a list of messages, in order, one line each. -/
def transcript (msgs : List (List (String × Json))) : List Char :=
  (msgs.map transcriptLine).flatten

/-- Source sbt.py lines 185 to 207: the correlation loop.  The stream is
modelled after framing, as the list of JSON object messages the message
iterator will yield; the function returns the exit code and buffer
together with the unread remainder of the stream.  An exhausted stream
(at_eof) with no completion found raises ValueError. -/
def read_until_complete_message (task_id : Int) :
    List (List (String × Json)) → List Char →
    Except PyErr ((Json × List Char) × List (List (String × Json)))
  | [], _ => .error (.valueError "Completion message not found")
  | m :: rest, buffer =>
    let buffer' := buffer ++ transcriptLine m
    if is_completion_message m task_id then
      (return_code m).map (fun rc => ((rc, buffer'), rest))
    else read_until_complete_message task_id rest buffer'

/-- The transcript of a concatenation splits into the two transcripts. -/
theorem transcript_append (a b : List (List (String × Json))) :
    transcript (a ++ b) = transcript a ++ transcript b := by
  simp [transcript]

/-- Non-matching messages are logged into the buffer and skipped. -/
theorem read_until_skip (task_id : Int) (pre : List (List (String × Json)))
    (h : ∀ x ∈ pre, is_completion_message x task_id = false) :
    ∀ tail buffer, read_until_complete_message task_id (pre ++ tail) buffer =
      read_until_complete_message task_id tail (buffer ++ transcript pre) := by
  induction pre with
  | nil => intro tail buffer; simp [transcript]
  | cons m pre ih =>
    intro tail buffer
    have hm : is_completion_message m task_id = false := h m (by simp)
    have hpre : ∀ x ∈ pre, is_completion_message x task_id = false :=
      fun x hx => h x (by simp [hx])
    have step : read_until_complete_message task_id ((m :: pre) ++ tail) buffer =
        read_until_complete_message task_id (pre ++ tail) (buffer ++ transcriptLine m) := by
      simp [read_until_complete_message, hm]
    rw [step, ih hpre]
    simp [transcript, List.append_assoc]

/-- C1: for a stream of non-matching messages followed by one whose id
field is the request id, the correlator consumes exactly those messages
(leaving any pending ones unread), returns the transcript of all of them
in arrival order, and an exit code equal to result.exitCode when a result
entry is present, else error.code.  Non-matching is formalised as
is_completion_message being false, i.e. the id entry absent or not equal
to the integer request id under Python equality. -/
theorem sbt_C1_correlator_reads_until_match (task_id : Int)
    (pre : List (List (String × Json))) (m : List (String × Json))
    (rest : List (List (String × Json))) (ec : Int)
    (hpre : ∀ x ∈ pre, is_completion_message x task_id = false)
    (hm : dictGet m "id" = some (.num task_id))
    (hec : (∃ r, dictGet m "result" = some (.obj r) ∧ dictGet r "exitCode" = some (.num ec))
         ∨ (dictGet m "result" = none ∧
            ∃ e, dictGet m "error" = some (.obj e) ∧ dictGet e "code" = some (.num ec))) :
    read_until_complete_message task_id (pre ++ m :: rest) [] =
      .ok ((Json.num ec, transcript (pre ++ [m])), rest) := by
  rw [read_until_skip task_id pre hpre]
  have hcompl : is_completion_message m task_id = true := by
    simp [is_completion_message, hm, pyEqInt]
  have hrc : return_code m = .ok (Json.num ec) := by
    rcases hec with ⟨r, hr, hre⟩ | ⟨hnone, e, he, hce⟩
    · simp [return_code, hr, jsonSubscript, hre]
    · simp [return_code, hnone, he, jsonSubscript, hce]
  simp [read_until_complete_message, hcompl, hrc, transcript_append, transcript,
    Except.map]

/-- Witness for C1 at a concrete stream of one junk message followed by a
matching result message. -/
theorem sbt_C1_witness :
    read_until_complete_message 10
      [[("junk", Json.str "data")],
       [("id", Json.num 10), ("result", Json.obj [("exitCode", Json.num 0)])]] [] =
      .ok ((Json.num 0,
        transcript [[("junk", Json.str "data")],
          [("id", Json.num 10), ("result", Json.obj [("exitCode", Json.num 0)])]]), []) :=
  sbt_C1_correlator_reads_until_match 10 [[("junk", Json.str "data")]]
    [("id", Json.num 10), ("result", Json.obj [("exitCode", Json.num 0)])] [] 0
    (by decide) (by rfl)
    (Or.inl ⟨[("exitCode", Json.num 0)], by constructor <;> rfl⟩)

/-- C6: a completion message carrying neither a result entry nor an error
entry makes return_code fail with the deterministic KeyError on the error
lookup; no default value is returned. -/
theorem sbt_C6_missing_branches_fail (m : List (String × Json))
    (h1 : dictGet m "result" = none) (h2 : dictGet m "error" = none) :
    return_code m = .error (.keyError "error") := by
  simp [return_code, h1, h2]

/-- Witness for C6 at a message with only an id entry. -/
theorem sbt_C6_witness :
    return_code [("id", Json.num 3)] = .error (.keyError "error") :=
  sbt_C6_missing_branches_fail [("id", Json.num 3)] (by rfl) (by rfl)

/-- C7: a finite stream exhausted without any matching message makes the
correlator terminate with the ValueError reading Completion message not
found (the spec's CorrelationExhausted), rather than return a result. -/
theorem sbt_C7_exhausted_stream_raises (task_id : Int)
    (msgs : List (List (String × Json)))
    (h : ∀ x ∈ msgs, is_completion_message x task_id = false) :
    read_until_complete_message task_id msgs [] =
      .error (.valueError "Completion message not found") := by
  have step := read_until_skip task_id msgs h [] []
  simpa [read_until_complete_message] using step

/-- Witness for C7 at a concrete stream of two junk messages. -/
theorem sbt_C7_witness :
    read_until_complete_message 5
      [[("junk", Json.str "a")], [("id", Json.num 4)]] [] =
      .error (.valueError "Completion message not found") :=
  sbt_C7_exhausted_stream_raises 5 [[("junk", Json.str "a")], [("id", Json.num 4)]]
    (by decide)

/-- Inversion of a successful correlation run, with an arbitrary starting
buffer: the stream splits into skipped messages, the completion message
and the untouched remainder, and the buffer extends by their transcript. -/
theorem read_until_ok_inversion (task_id : Int) :
    ∀ (msgs : List (List (String × Json))) (buffer t : List Char) (rc : Json)
      (rest : List (List (String × Json))),
      read_until_complete_message task_id msgs buffer = .ok ((rc, t), rest) →
      ∃ pre m, msgs = pre ++ m :: rest ∧
        (∀ x ∈ pre, is_completion_message x task_id = false) ∧
        is_completion_message m task_id = true ∧
        t = buffer ++ transcript (pre ++ [m]) := by
  intro msgs
  induction msgs with
  | nil => intro buffer t rc rest h; simp [read_until_complete_message] at h
  | cons m ms ih =>
    intro buffer t rc rest h
    by_cases hc : is_completion_message m task_id = true
    · refine ⟨[], m, ?_, by simp, hc, ?_⟩
      · simp only [read_until_complete_message, hc, if_true] at h
        rcases hrc : return_code m with e | v <;> simp [hrc, Except.map] at h
        simp [h.2]
      · simp only [read_until_complete_message, hc, if_true] at h
        rcases hrc : return_code m with e | v <;> simp [hrc, Except.map] at h
        simp [transcript, ← h.1.2]
    · have hc' : is_completion_message m task_id = false := by
        simpa using hc
      simp only [read_until_complete_message, hc', Bool.false_eq_true, if_false] at h
      obtain ⟨pre, mm, hsplit, hpre, hmm, ht⟩ := ih _ _ _ _ h
      refine ⟨m :: pre, mm, by simp [hsplit], ?_, hmm, ?_⟩
      · intro x hx
        rcases List.mem_cons.mp hx with hx | hx
        · simpa [hx] using hc'
        · exact hpre x hx
      · simp [ht, transcript, List.append_assoc]

/-- C8: whenever the correlator returns, the transcript it returns is the
ordered concatenation of every message it observed, up to and including
the completion message, each one serialized by json.dumps on its own
line, in exact arrival order. -/
theorem sbt_C8_transcript_is_ordered_log (task_id : Int)
    (msgs : List (List (String × Json))) (t : List Char) (rc : Json)
    (rest : List (List (String × Json)))
    (h : read_until_complete_message task_id msgs [] = .ok ((rc, t), rest)) :
    ∃ pre m, msgs = pre ++ m :: rest ∧
      (∀ x ∈ pre, is_completion_message x task_id = false) ∧
      is_completion_message m task_id = true ∧
      t = transcript (pre ++ [m]) := by
  obtain ⟨pre, m, hsplit, hpre, hm, ht⟩ :=
    read_until_ok_inversion task_id msgs [] t rc rest h
  exact ⟨pre, m, hsplit, hpre, hm, by simpa using ht⟩

/-- Witness for C8 at a concrete one-message stream completing with an
error branch. -/
theorem sbt_C8_witness :
    ∃ pre m,
      [[("id", Json.num 4), ("error", Json.obj [("code", Json.num 2)])]] =
        pre ++ m :: ([] : List (List (String × Json))) ∧
      (∀ x ∈ pre, is_completion_message x 4 = false) ∧
      is_completion_message m 4 = true ∧
      transcriptLine [("id", Json.num 4), ("error", Json.obj [("code", Json.num 2)])] =
        transcript (pre ++ [m]) :=
  sbt_C8_transcript_is_ordered_log 4
    [[("id", Json.num 4), ("error", Json.obj [("code", Json.num 2)])]]
    (transcriptLine [("id", Json.num 4), ("error", Json.obj [("code", Json.num 2)])])
    (Json.num 2) [] (by rfl)

/-- Source sbt.py lines 84 to 85: wrap a string in double quotes. -/
def _quote (s : String) : String := "\"" ++ s ++ "\""

/-- Python str.join with a single space separator. -/
def spaceJoin : List String → String
  | [] => ""
  | [x] => x
  | x :: y :: rest => x ++ " " ++ spaceJoin (y :: rest)

/-- Source sbt.py lines 78 to 81: the interpolated sbt command string:
entry point, space, space-joined raw args, space, space-joined
individually quoted file paths. -/
def _sbt_command (entry : String) (args : List String) (files : List String) : String :=
  entry ++ " " ++ spaceJoin args ++ " " ++ spaceJoin (files.map _quote)

/-- C9: the interpolated command is the entry point, the space-joined
unquoted arguments and the space-joined individually double-quoted file
paths; in particular, for the files a.txt and b c.txt the command ends
with the two quoted paths regardless of the arguments. -/
theorem sbt_C9_interpolation_quotes_files (entry : String) (args : List String)
    (files : List String) :
    _sbt_command entry args files =
      entry ++ " " ++ spaceJoin args ++ " " ++ spaceJoin (files.map _quote) ∧
    _sbt_command entry args ["a.txt", "b c.txt"] =
      entry ++ " " ++ spaceJoin args ++ " " ++ "\"a.txt\" \"b c.txt\"" := by
  constructor
  · rfl
  · show _ = _ ++ _
    rw [_sbt_command]
    rfl

/-- The decimal digit characters evaluate to their expected codepoints. -/
theorem digitCh_toNat : ∀ d, d < 10 → (digitCh d).toNat = 48 + d := by decide

/-- Digit characters pass the digit test. -/
theorem isDigitCh_digitCh : ∀ d, d < 10 → isDigitCh (digitCh d) = true := by decide

/-- A digit character has a codepoint between 48 and 57. -/
theorem isDigitCh_val (c : Char) (h : isDigitCh c = true) :
    48 ≤ c.toNat ∧ c.toNat ≤ 57 := by
  simpa [isDigitCh, Bool.and_eq_true, decide_eq_true_eq] using h

/-- Characters with different codepoints differ. -/
theorem char_ne_of_toNat_ne (c d : Char) (h : c.toNat ≠ d.toNat) : c ≠ d :=
  fun e => h (by rw [e])

/-- The digit accumulator of natReprAux only prepends to it. -/
theorem natReprAux_acc (n : Nat) : ∀ acc, natReprAux n acc = natRepr n ++ acc := by
  induction n using Nat.strong_induction_on with
  | _ n ih =>
    intro acc
    by_cases h : n < 10
    · rw [natRepr]
      conv_lhs => rw [natReprAux]
      conv_rhs => rw [natReprAux]
      simp [h]
    · have hd : n / 10 < n := Nat.div_lt_self (by omega) (by omega)
      rw [natRepr]
      conv_lhs => rw [natReprAux]
      conv_rhs => rw [natReprAux]
      rw [if_neg h, if_neg h, ih _ hd, ih _ hd]
      simp

/-- Peeling the last digit off a decimal representation. -/
theorem natRepr_step (n : Nat) (h : ¬ n < 10) :
    natRepr n = natRepr (n / 10) ++ [digitCh (n % 10)] := by
  rw [natRepr, natReprAux, if_neg h, natReprAux_acc]

/-- A decimal representation of a small number is a single digit. -/
theorem natRepr_small (n : Nat) (h : n < 10) : natRepr n = [digitCh n] := by
  rw [natRepr, natReprAux, if_pos h]

/-- A decimal representation is never empty. -/
theorem natRepr_ne_nil (n : Nat) : natRepr n ≠ [] := by
  by_cases h : n < 10
  · simp [natRepr_small n h]
  · simp [natRepr_step n h]

/-- Every character of a decimal representation is a digit. -/
theorem natRepr_all_digits (n : Nat) : ∀ c ∈ natRepr n, isDigitCh c = true := by
  induction n using Nat.strong_induction_on with
  | _ n ih =>
    by_cases h : n < 10
    · rw [natRepr_small n h]
      intro c hc
      rw [List.mem_singleton] at hc
      exact hc ▸ isDigitCh_digitCh n h
    · rw [natRepr_step n h]
      intro c hc
      rcases List.mem_append.mp hc with hc | hc
      · exact ih _ (Nat.div_lt_self (by omega) (by omega)) c hc
      · rw [List.mem_singleton] at hc
        exact hc ▸ isDigitCh_digitCh _ (Nat.mod_lt _ (by omega))

/-- Parsing back the decimal representation recovers the number. -/
theorem digitsToNat_natRepr (n : Nat) : digitsToNat (natRepr n) = n := by
  induction n using Nat.strong_induction_on with
  | _ n ih =>
    by_cases h : n < 10
    · rw [natRepr_small n h]
      simp [digitsToNat, digitCh_toNat n h]
    · rw [natRepr_step n h, digitsToNat, List.foldl_append]
      have := ih (n / 10) (Nat.div_lt_self (by omega) (by omega))
      rw [digitsToNat] at this
      rw [this]
      simp [digitCh_toNat (n % 10) (Nat.mod_lt _ (by omega))]
      omega

/-- Hex digit characters parse back to their values. -/
theorem hexVal_hexDigitCh : ∀ v, v < 16 → hexVal (hexDigitCh v) = some v := by decide

/-- Every character has a valid (non-surrogate, in-range) codepoint. -/
theorem char_valid_range (c : Char) :
    c.toNat < 55296 ∨ (57343 < c.toNat ∧ c.toNat < 1114112) := c.valid

/-- Prepend a parsed character to the result of parsing the remainder of a
string body. -/
def consOpt (c : Char) (r : Option (List Char × List Char)) :
    Option (List Char × List Char) :=
  r.map (fun p => (c :: p.1, p.2))

/-- Combined value of four hex digit characters. -/
def hex4Val (a b c d : Char) : Option Nat :=
  (hexVal a).bind fun va => (hexVal b).bind fun vb =>
    (hexVal c).bind fun vc => (hexVal d).map fun vd =>
      va * 4096 + vb * 256 + vc * 16 + vd

/-- Decode one backslash-u escape after its backslash-u introducer, as
Python's json module does: four hex digits, with a high surrogate
followed by a second escaped low surrogate combining into one astral
character.  A lone surrogate (which Python would decode to an unpaired
surrogate in the str) has no Lean character and is rejected; such escapes
never occur in traffic produced by this client. -/
def parseUnicodeEscape (l : List Char) : Option (Char × List Char) :=
  match l with
  | a :: b :: c :: d :: rest =>
    match hex4Val a b c d with
    | none => none
    | some n =>
      if 55296 ≤ n ∧ n ≤ 56319 then
        match rest with
        | e1 :: e2 :: a2 :: b2 :: c2 :: d2 :: rest2 =>
          if e1 = '\\' ∧ e2 = 'u' then
            match hex4Val a2 b2 c2 d2 with
            | none => none
            | some m =>
              if 56320 ≤ m ∧ m ≤ 57343 then
                some (Char.ofNat (65536 + (n - 55296) * 1024 + (m - 56320)), rest2)
              else none
          else none
        | _ => none
      else if 56320 ≤ n ∧ n ≤ 57343 then none
      else some (Char.ofNat n, rest)
  | _ => none

/-- A successful unicode escape consumes at least four characters. -/
theorem parseUnicodeEscape_length (l : List Char) (ch : Char) (r : List Char)
    (h : parseUnicodeEscape l = some (ch, r)) : r.length + 4 ≤ l.length := by
  unfold parseUnicodeEscape at h
  repeat' split at h
  all_goals simp_all

/-- Parser for the body of a JSON string after the opening quote, as
Python's json module reads it in its default strict mode: plain
characters up to the closing quote, the two-character escapes,
backslash-u escapes, and rejection of raw control characters. -/
def parseStringBody : List Char → Option (List Char × List Char)
  | [] => none
  | c :: rest =>
    if c = '"' then some ([], rest)
    else if c = '\\' then
      match rest with
      | [] => none
      | e :: rest2 =>
        if e = '"' then consOpt '"' (parseStringBody rest2)
        else if e = '\\' then consOpt '\\' (parseStringBody rest2)
        else if e = '/' then consOpt '/' (parseStringBody rest2)
        else if e = 'b' then consOpt (Char.ofNat 8) (parseStringBody rest2)
        else if e = 'f' then consOpt (Char.ofNat 12) (parseStringBody rest2)
        else if e = 'n' then consOpt '\n' (parseStringBody rest2)
        else if e = 'r' then consOpt '\r' (parseStringBody rest2)
        else if e = 't' then consOpt '\t' (parseStringBody rest2)
        else if e = 'u' then
          match hu : parseUnicodeEscape rest2 with
          | some (ch, rest3) => consOpt ch (parseStringBody rest3)
          | none => none
        else none
    else if c.toNat < 32 then none
    else consOpt c (parseStringBody rest)
termination_by l => l.length
decreasing_by
  all_goals simp_wf
  all_goals try omega
  have := parseUnicodeEscape_length _ _ _ hu
  omega

/-- Reading a closing quote ends the string body. -/
theorem psb_close (rest : List Char) : parseStringBody ('"' :: rest) = some ([], rest) := by
  rw [parseStringBody.eq_def]; simp

/-- Reading a plain printable character keeps it. -/
theorem psb_plain (c : Char) (rest : List Char) (h1 : ¬ c = '"') (h2 : ¬ c = '\\')
    (h3 : ¬ c.toNat < 32) :
    parseStringBody (c :: rest) = consOpt c (parseStringBody rest) := by
  rw [parseStringBody.eq_def]
  simp only [if_neg h1, if_neg h2, if_neg h3]

/-- Reading an escaped quote. -/
theorem psb_esc_quote (rest : List Char) :
    parseStringBody ('\\' :: '"' :: rest) = consOpt '"' (parseStringBody rest) := by
  rw [parseStringBody]; simp

/-- Reading an escaped backslash. -/
theorem psb_esc_backslash (rest : List Char) :
    parseStringBody ('\\' :: '\\' :: rest) = consOpt '\\' (parseStringBody rest) := by
  rw [parseStringBody]; simp

/-- Reading an escaped letter b. -/
theorem psb_esc_b (rest : List Char) :
    parseStringBody ('\\' :: 'b' :: rest) = consOpt (Char.ofNat 8) (parseStringBody rest) := by
  rw [parseStringBody]; simp

/-- Reading an escaped letter f. -/
theorem psb_esc_f (rest : List Char) :
    parseStringBody ('\\' :: 'f' :: rest) = consOpt (Char.ofNat 12) (parseStringBody rest) := by
  rw [parseStringBody]; simp

/-- Reading an escaped letter n. -/
theorem psb_esc_n (rest : List Char) :
    parseStringBody ('\\' :: 'n' :: rest) = consOpt '\n' (parseStringBody rest) := by
  rw [parseStringBody]; simp

/-- Reading an escaped letter r. -/
theorem psb_esc_r (rest : List Char) :
    parseStringBody ('\\' :: 'r' :: rest) = consOpt '\r' (parseStringBody rest) := by
  rw [parseStringBody]; simp

/-- Reading an escaped letter t. -/
theorem psb_esc_t (rest : List Char) :
    parseStringBody ('\\' :: 't' :: rest) = consOpt '\t' (parseStringBody rest) := by
  rw [parseStringBody]; simp

/-- Reading a backslash-u escape defers to the unicode escape decoder. -/
theorem psb_esc_u (rest2 rest3 : List Char) (ch : Char)
    (hpe : parseUnicodeEscape rest2 = some (ch, rest3)) :
    parseStringBody ('\\' :: 'u' :: rest2) = consOpt ch (parseStringBody rest3) := by
  rw [parseStringBody]
  simp only [Char.reduceEq, if_false, if_true, reduceIte]
  split
  · rename_i a b heq
    rw [hpe] at heq
    injection heq with heq
    cases heq
    rfl
  · rename_i heq
    rw [hpe] at heq
    cases heq

/-- Decoding a basic-plane (non-surrogate) codepoint escape. -/
theorem pue_bmp (n : Nat) (rest : List Char) (hn : n < 65536)
    (hns : n < 55296 ∨ 57343 < n) :
    parseUnicodeEscape (hex4 n ++ rest) = some (Char.ofNat n, rest) := by
  have e1 : hexVal (hexDigitCh (n / 4096 % 16)) = some (n / 4096 % 16) :=
    hexVal_hexDigitCh _ (by omega)
  have e2 : hexVal (hexDigitCh (n / 256 % 16)) = some (n / 256 % 16) :=
    hexVal_hexDigitCh _ (by omega)
  have e3 : hexVal (hexDigitCh (n / 16 % 16)) = some (n / 16 % 16) :=
    hexVal_hexDigitCh _ (by omega)
  have e4 : hexVal (hexDigitCh (n % 16)) = some (n % 16) :=
    hexVal_hexDigitCh _ (by omega)
  have hsum : n / 4096 % 16 * 4096 + n / 256 % 16 * 256 + n / 16 % 16 * 16 + n % 16 = n := by
    omega
  have hs1 : ¬ (55296 ≤ n ∧ n ≤ 56319) := by omega
  have hs2 : ¬ (56320 ≤ n ∧ n ≤ 57343) := by omega
  simp [hex4, parseUnicodeEscape, hex4Val, e1, e2, e3, e4, hsum, hs1, hs2]

/-- Decoding a surrogate pair of escapes into one astral character. -/
theorem pue_pair (hi lo : Nat) (rest : List Char)
    (hhi : 55296 ≤ hi ∧ hi ≤ 56319) (hlo : 56320 ≤ lo ∧ lo ≤ 57343) :
    parseUnicodeEscape (hex4 hi ++ ('\\' :: 'u' :: (hex4 lo ++ rest))) =
      some (Char.ofNat (65536 + (hi - 55296) * 1024 + (lo - 56320)), rest) := by
  have e1 : hexVal (hexDigitCh (hi / 4096 % 16)) = some (hi / 4096 % 16) :=
    hexVal_hexDigitCh _ (by omega)
  have e2 : hexVal (hexDigitCh (hi / 256 % 16)) = some (hi / 256 % 16) :=
    hexVal_hexDigitCh _ (by omega)
  have e3 : hexVal (hexDigitCh (hi / 16 % 16)) = some (hi / 16 % 16) :=
    hexVal_hexDigitCh _ (by omega)
  have e4 : hexVal (hexDigitCh (hi % 16)) = some (hi % 16) :=
    hexVal_hexDigitCh _ (by omega)
  have f1 : hexVal (hexDigitCh (lo / 4096 % 16)) = some (lo / 4096 % 16) :=
    hexVal_hexDigitCh _ (by omega)
  have f2 : hexVal (hexDigitCh (lo / 256 % 16)) = some (lo / 256 % 16) :=
    hexVal_hexDigitCh _ (by omega)
  have f3 : hexVal (hexDigitCh (lo / 16 % 16)) = some (lo / 16 % 16) :=
    hexVal_hexDigitCh _ (by omega)
  have f4 : hexVal (hexDigitCh (lo % 16)) = some (lo % 16) :=
    hexVal_hexDigitCh _ (by omega)
  have hsumhi : hi / 4096 % 16 * 4096 + hi / 256 % 16 * 256 + hi / 16 % 16 * 16 + hi % 16 = hi := by
    omega
  have hsumlo : lo / 4096 % 16 * 4096 + lo / 256 % 16 * 256 + lo / 16 % 16 * 16 + lo % 16 = lo := by
    omega
  simp [hex4, parseUnicodeEscape, hex4Val, e1, e2, e3, e4, f1, f2, f3, f4,
    hsumhi, hsumlo, hhi, hlo]

/-- Parsing the escape of one character off the front of a string body
prepends exactly that character. -/
theorem parse_escapeChar (c : Char) (rest cs k : List Char)
    (h : parseStringBody rest = some (cs, k)) :
    parseStringBody (escapeChar c ++ rest) = some (c :: cs, k) := by
  by_cases h1 : c = '"'
  · subst h1
    have e : escapeChar '"' ++ rest = '\\' :: '"' :: rest := rfl
    rw [e, psb_esc_quote, h]; rfl
  by_cases h2 : c = '\\'
  · subst h2
    have e : escapeChar '\\' ++ rest = '\\' :: '\\' :: rest := rfl
    rw [e, psb_esc_backslash, h]; rfl
  by_cases h3 : c = '\n'
  · subst h3
    have e : escapeChar '\n' ++ rest = '\\' :: 'n' :: rest := rfl
    rw [e, psb_esc_n, h]; rfl
  by_cases h4 : c = '\r'
  · subst h4
    have e : escapeChar '\r' ++ rest = '\\' :: 'r' :: rest := rfl
    rw [e, psb_esc_r, h]; rfl
  by_cases h5 : c = '\t'
  · subst h5
    have e : escapeChar '\t' ++ rest = '\\' :: 't' :: rest := rfl
    rw [e, psb_esc_t, h]; rfl
  by_cases h6 : c.toNat = 8
  · have hc : Char.ofNat 8 = c := by rw [← h6, Char.ofNat_toNat]
    have e : escapeChar c ++ rest = '\\' :: 'b' :: rest := by
      simp [escapeChar, h1, h2, h3, h4, h5, h6]
    rw [e, psb_esc_b, h, hc]; rfl
  by_cases h7 : c.toNat = 12
  · have hc : Char.ofNat 12 = c := by rw [← h7, Char.ofNat_toNat]
    have e : escapeChar c ++ rest = '\\' :: 'f' :: rest := by
      simp [escapeChar, h1, h2, h3, h4, h5, h6, h7]
    rw [e, psb_esc_f, h, hc]; rfl
  by_cases h8 : 32 ≤ c.toNat ∧ c.toNat ≤ 126
  · have hlt : ¬ c.toNat < 32 := by omega
    have e : escapeChar c ++ rest = c :: rest := by
      simp [escapeChar, h1, h2, h3, h4, h5, h6, h7, h8]
    rw [e, psb_plain c rest h1 h2 hlt, h]; rfl
  by_cases h9 : c.toNat < 65536
  · have hval := char_valid_range c
    have hns : c.toNat < 55296 ∨ 57343 < c.toNat := by omega
    have e : escapeChar c ++ rest = '\\' :: 'u' :: (hex4 c.toNat ++ rest) := by
      simp [escapeChar, h1, h2, h3, h4, h5, h6, h7, h8, h9]
    rw [e, psb_esc_u _ rest _ (pue_bmp c.toNat rest h9 hns), h, Char.ofNat_toNat]
    rfl
  · have hval := char_valid_range c
    have hhi : 55296 ≤ 55296 + (c.toNat - 65536) / 1024 ∧
        55296 + (c.toNat - 65536) / 1024 ≤ 56319 := by omega
    have hlo : 56320 ≤ 56320 + (c.toNat - 65536) % 1024 ∧
        56320 + (c.toNat - 65536) % 1024 ≤ 57343 := by omega
    have e : escapeChar c ++ rest =
        '\\' :: 'u' :: (hex4 (55296 + (c.toNat - 65536) / 1024) ++
          ('\\' :: 'u' :: (hex4 (56320 + (c.toNat - 65536) % 1024) ++ rest))) := by
      simp [escapeChar, h1, h2, h3, h4, h5, h6, h7, h8, h9]
    rw [e, psb_esc_u _ rest _ (pue_pair _ _ rest hhi hlo), h]
    have hrec : 65536 + (55296 + (c.toNat - 65536) / 1024 - 55296) * 1024 +
        (56320 + (c.toNat - 65536) % 1024 - 56320) = c.toNat := by omega
    rw [hrec, Char.ofNat_toNat]
    rfl

/-- Parsing back the escaped form of a whole string body recovers it. -/
theorem parseStringBody_escList (s : List Char) :
    ∀ k, parseStringBody (escList s ++ '"' :: k) = some (s, k) := by
  induction s with
  | nil => intro k; simp [escList, psb_close]
  | cons c cs ih =>
    intro k
    have hesc : escList (c :: cs) = escapeChar c ++ escList cs := by simp [escList]
    rw [hesc, List.append_assoc]
    exact parse_escapeChar c _ cs k (ih k)

/-- Skip JSON whitespace. -/
def skipWs : List Char → List Char
  | [] => []
  | c :: rest => if isJsonWs c then skipWs rest else c :: rest

/-- Longest digit prefix of a character list, with the remainder. -/
def takeDigits : List Char → List Char × List Char
  | [] => ([], [])
  | c :: rest =>
    if isDigitCh c then
      let p := takeDigits rest
      (c :: p.1, p.2)
    else ([], c :: rest)

/-- True when the remainder would begin a fractional or exponent part.
The JSON numbers this client produces or inspects are all integral, so
the model treats a float continuation as an unsupported parse. -/
def floatish : List Char → Bool
  | [] => false
  | c :: _ => c = '.' || c = 'e' || c = 'E'

/-- Parse a JSON number as an integer: an optional minus sign followed by
decimal digits. -/
def parseNum : List Char → Option (Json × List Char)
  | [] => none
  | c :: rest =>
    if c = '-' then
      let p := takeDigits rest
      if p.1 = [] then none
      else if floatish p.2 then none
      else some (.num (-(digitsToNat p.1 : Int)), p.2)
    else
      let p := takeDigits (c :: rest)
      if p.1 = [] then none
      else if floatish p.2 then none
      else some (.num (digitsToNat p.1), p.2)

mutual

/-- Fueled parser for one JSON value, modelling Python json.loads.  The
fuel only bounds recursion into nested containers; jsonLoads supplies
more than any input can consume. -/
def parseValue : Nat → List Char → Option (Json × List Char)
  | 0, _ => none
  | n + 1, l =>
    match skipWs l with
    | [] => none
    | c :: rest =>
      if c = '\x7b' then
        match skipWs rest with
        | '\x7d' :: r => some (.obj [], r)
        | r => parseMembers n r []
      else if c = '[' then
        match skipWs rest with
        | ']' :: r => some (.arr [], r)
        | r => parseElems n r []
      else if c = '"' then
        match parseStringBody rest with
        | some (s, r) => some (.str (String.mk s), r)
        | none => none
      else if c = 't' then
        match rest with
        | 'r' :: 'u' :: 'e' :: r => some (.bool true, r)
        | _ => none
      else if c = 'f' then
        match rest with
        | 'a' :: 'l' :: 's' :: 'e' :: r => some (.bool false, r)
        | _ => none
      else if c = 'n' then
        match rest with
        | 'u' :: 'l' :: 'l' :: r => some (.null, r)
        | _ => none
      else parseNum (c :: rest)

/-- Fueled parser for the members of a JSON object after its opening
brace, accumulating parsed members in order (a duplicate key would
appear twice here; lookups through dictGet take the later one, matching
Python dict insertion). -/
def parseMembers : Nat → List Char → List (String × Json) → Option (Json × List Char)
  | 0, _, _ => none
  | n + 1, l, acc =>
    match skipWs l with
    | '"' :: r1 =>
      match parseStringBody r1 with
      | some (kc, r2) =>
        match skipWs r2 with
        | ':' :: r3 =>
          match parseValue n r3 with
          | some (v, r4) =>
            match skipWs r4 with
            | ',' :: r5 => parseMembers n r5 (acc ++ [(String.mk kc, v)])
            | '\x7d' :: r5 => some (.obj (acc ++ [(String.mk kc, v)]), r5)
            | _ => none
          | none => none
        | _ => none
      | none => none
    | _ => none

/-- Fueled parser for the elements of a JSON array after its opening
bracket. -/
def parseElems : Nat → List Char → List Json → Option (Json × List Char)
  | 0, _, _ => none
  | n + 1, l, acc =>
    match parseValue n l with
    | some (v, r1) =>
      match skipWs r1 with
      | ',' :: r2 => parseElems n r2 (acc ++ [v])
      | ']' :: r2 => some (.arr (acc ++ [v]), r2)
      | _ => none
    | none => none

end

/-- Model of Python json.loads: parse one document, tolerating leading
and trailing whitespace, and fail on trailing data.  The fuel handed to
the parser exceeds what parsing the input can consume. -/
def jsonLoads (l : List Char) : Except PyErr Json :=
  match parseValue (l.length + 8) l with
  | some (v, rest) => if skipWs rest = [] then .ok v else .error (.valueError "Extra data")
  | none => .error (.valueError "Expecting value")

/-- A continuation after a number that neither extends the digit string
nor begins a float part.  Every continuation arising inside a dumped
document (comma, closing brackets, end of input, CRLF) satisfies it. -/
def numBoundary : List Char → Prop
  | [] => True
  | c :: _ => isDigitCh c = false ∧ c ≠ '.' ∧ c ≠ 'e' ∧ c ≠ 'E'

/-- A continuation that does not start with a digit. -/
def headNotDigit : List Char → Prop
  | [] => True
  | c :: _ => isDigitCh c = false

theorem headNotDigit_of_boundary (k : List Char) (hk : numBoundary k) : headNotDigit k := by
  cases k with
  | nil => trivial
  | cons c x => exact hk.1

theorem floatish_of_boundary (k : List Char) (hk : numBoundary k) : floatish k = false := by
  cases k with
  | nil => rfl
  | cons c x =>
    simp [floatish, hk.2.1, hk.2.2.1, hk.2.2.2]

/-- Taking digits off a digit string followed by a non-digit splits at
the boundary. -/
theorem takeDigits_all (ds : List Char) (hds : ∀ c ∈ ds, isDigitCh c = true) :
    ∀ k, headNotDigit k → takeDigits (ds ++ k) = (ds, k) := by
  induction ds with
  | nil =>
    intro k hk
    cases k with
    | nil => rfl
    | cons c x =>
      have : isDigitCh c = false := hk
      simp [takeDigits, this]
  | cons d ds ih =>
    intro k hk
    have hd : isDigitCh d = true := hds d (by simp)
    have hds' : ∀ c ∈ ds, isDigitCh c = true := fun c hc => hds c (by simp [hc])
    simp [takeDigits, hd, ih hds' k hk]

/-- Parsing back the decimal rendering of an integer recovers it. -/
theorem parseNum_intRepr (i : Int) (k : List Char) (hk : numBoundary k) :
    parseNum (intRepr i ++ k) = some (.num i, k) := by
  have hfl := floatish_of_boundary k hk
  have hnd := headNotDigit_of_boundary k hk
  cases i with
  | ofNat m =>
    rcases hnr : natRepr m with _ | ⟨c, cs⟩
    · exact absurd hnr (natRepr_ne_nil m)
    · have hall : ∀ x ∈ natRepr m, isDigitCh x = true := natRepr_all_digits m
      have hc : isDigitCh c = true := hall c (by rw [hnr]; simp)
      have hcv := isDigitCh_val c hc
      have hcm : ¬ c = '-' := char_ne_of_toNat_ne c '-'
        (by have h45 : ('-').toNat = 45 := rfl; omega)
      have htd : takeDigits ((c :: cs) ++ k) = (c :: cs, k) := by
        rw [← hnr]
        exact takeDigits_all (natRepr m) hall k hnd
      show parseNum (natRepr m ++ k) = some (.num (Int.ofNat m), k)
      rw [hnr, List.cons_append, parseNum, if_neg hcm]
      rw [List.cons_append] at htd
      simp only [htd, hfl]
      have : digitsToNat (c :: cs) = m := by rw [← hnr, digitsToNat_natRepr]
      simp [this]
  | negSucc m =>
    have hall := natRepr_all_digits (m + 1)
    have htd : takeDigits (natRepr (m + 1) ++ k) = (natRepr (m + 1), k) :=
      takeDigits_all (natRepr (m + 1)) hall k hnd
    show parseNum (('-' :: natRepr (m + 1)) ++ k) = some (.num (Int.negSucc m), k)
    rw [List.cons_append, parseNum, if_pos rfl]
    simp only [htd, hfl, natRepr_ne_nil, digitsToNat_natRepr]
    simp [natRepr_ne_nil (m + 1), Int.negSucc_eq]

mutual

/-- Fuel sufficient for parseValue to parse the dumped form of a value. -/
def fuelJ : Json → Nat
  | .obj fs => fuelF fs + 1
  | .arr xs => fuelE xs + 1
  | _ => 1

/-- Fuel sufficient for parseMembers to parse dumped members. -/
def fuelF : List (String × Json) → Nat
  | [] => 1
  | kv :: rest => fuelJ kv.2 + fuelF rest + 1

/-- Fuel sufficient for parseElems to parse dumped elements. -/
def fuelE : List Json → Nat
  | [] => 1
  | v :: rest => fuelJ v + fuelE rest + 1

end

theorem skipWs_cons_ws (c : Char) (l : List Char) (h : isJsonWs c = true) :
    skipWs (c :: l) = skipWs l := by simp [skipWs, h]

theorem skipWs_cons (c : Char) (l : List Char) (h : isJsonWs c = false) :
    skipWs (c :: l) = c :: l := by simp [skipWs, h]

/-- A leading space is absorbed by the value parser. -/
theorem parseValue_ws (n : Nat) (l : List Char) :
    parseValue n (' ' :: l) = parseValue n l := by
  cases n with
  | zero => rfl
  | succ n => rw [parseValue, parseValue, skipWs_cons_ws ' ' l (by decide)]

/-- A leading space is absorbed by the member parser. -/
theorem parseMembers_ws (n : Nat) (l : List Char) (acc : List (String × Json)) :
    parseMembers n (' ' :: l) acc = parseMembers n l acc := by
  cases n with
  | zero => rfl
  | succ n => rw [parseMembers, parseMembers, skipWs_cons_ws ' ' l (by decide)]

/-- A digit is not JSON whitespace. -/
theorem isJsonWs_false_of_digit (c : Char) (h : isDigitCh c = true) :
    isJsonWs c = false := by
  have := isDigitCh_val c h
  simp only [isJsonWs, Bool.or_eq_false_iff, decide_eq_false_iff_not]
  omega

/-- The decimal rendering of an int starts with a digit or a minus sign. -/
theorem intRepr_head (i : Int) :
    ∃ c t, intRepr i = c :: t ∧ (isDigitCh c = true ∨ c = '-') := by
  cases i with
  | ofNat m =>
    rcases hnr : natRepr m with _ | ⟨c, cs⟩
    · exact absurd hnr (natRepr_ne_nil m)
    · exact ⟨c, cs, hnr, Or.inl (natRepr_all_digits m c (by rw [hnr]; simp))⟩
  | negSucc m => exact ⟨'-', natRepr (m + 1), rfl, Or.inr rfl⟩

/-- The head of a rendered number is not any structural character the
value parser dispatches on. -/
theorem num_head_facts (c : Char) (h : isDigitCh c = true ∨ c = '-') :
    ¬ c = '\x7b' ∧ ¬ c = '[' ∧ ¬ c = '"' ∧ ¬ c = 't' ∧ ¬ c = 'f' ∧ ¬ c = 'n' ∧
    isJsonWs c = false := by
  rcases h with h | h
  · have := isDigitCh_val c h
    refine ⟨?_, ?_, ?_, ?_, ?_, ?_, isJsonWs_false_of_digit c h⟩
    · exact char_ne_of_toNat_ne _ _ (by have e : ('\x7b').toNat = 123 := rfl; omega)
    · exact char_ne_of_toNat_ne _ _ (by have e : ('[').toNat = 91 := rfl; omega)
    · exact char_ne_of_toNat_ne _ _ (by have e : ('"').toNat = 34 := rfl; omega)
    · exact char_ne_of_toNat_ne _ _ (by have e : ('t').toNat = 116 := rfl; omega)
    · exact char_ne_of_toNat_ne _ _ (by have e : ('f').toNat = 102 := rfl; omega)
    · exact char_ne_of_toNat_ne _ _ (by have e : ('n').toNat = 110 := rfl; omega)
  · subst h
    exact ⟨by decide, by decide, by decide, by decide, by decide, by decide, by decide⟩

/-- Dumped members start with a double quote. -/
theorem dumpMembers_head (key : String) (v : Json) (fs : List (String × Json)) :
    ∃ t, dumpMembers ((key, v) :: fs) = '"' :: t := by
  cases fs with
  | nil => exact ⟨_, rfl⟩
  | cons kv fs' => exact ⟨_, rfl⟩

/-- The first character of a dumped value is not whitespace and not a
closing bracket. -/
theorem jsonDumps_head (v : Json) :
    ∃ c t, jsonDumps v = c :: t ∧ isJsonWs c = false ∧ ¬ c = ']' := by
  cases v with
  | null => exact ⟨'n', _, rfl, by decide, by decide⟩
  | bool b =>
    cases b with
    | false => exact ⟨'f', _, rfl, by decide, by decide⟩
    | true => exact ⟨'t', _, rfl, by decide, by decide⟩
  | num i =>
    obtain ⟨c, t, hct, hdig⟩ := intRepr_head i
    obtain ⟨_, _, _, _, _, _, hws⟩ := num_head_facts c hdig
    refine ⟨c, t, hct, hws, ?_⟩
    rcases hdig with hdig | hdig
    · have := isDigitCh_val c hdig
      exact char_ne_of_toNat_ne _ _ (by have e : (']').toNat = 93 := rfl; omega)
    · subst hdig; decide
  | str s => exact ⟨'"', _, rfl, by decide, by decide⟩
  | arr xs => exact ⟨'[', _, rfl, by decide, by decide⟩
  | obj fs => exact ⟨'\x7b', _, rfl, by decide, by decide⟩

/-- The string a key round-trips through its character data. -/
theorem string_mk_data (s : String) : String.mk s.data = s := by
  cases s; rfl

theorem numBoundary_brace (x : List Char) : numBoundary ('\x7d' :: x) :=
  ⟨by decide, by decide, by decide, by decide⟩

theorem numBoundary_comma (x : List Char) : numBoundary (',' :: x) :=
  ⟨by decide, by decide, by decide, by decide⟩

theorem numBoundary_bracket (x : List Char) : numBoundary (']' :: x) :=
  ⟨by decide, by decide, by decide, by decide⟩

mutual

theorem parse_dump (v : Json) (n : Nat) (k : List Char) (hk : numBoundary k) :
    parseValue (n + fuelJ v) (jsonDumps v ++ k) = some (v, k) := by
  cases v with
  | null =>
    show parseValue (n + 1) ('n' :: 'u' :: 'l' :: 'l' :: k) = some (Json.null, k)
    rw [parseValue]
    simp [skipWs, isJsonWs]
  | bool b =>
    cases b with
    | true =>
      show parseValue (n + 1) ('t' :: 'r' :: 'u' :: 'e' :: k) = some (Json.bool true, k)
      rw [parseValue]
      simp [skipWs, isJsonWs]
    | false =>
      show parseValue (n + 1) ('f' :: 'a' :: 'l' :: 's' :: 'e' :: k) =
        some (Json.bool false, k)
      rw [parseValue]
      simp [skipWs, isJsonWs]
  | num i =>
    show parseValue (n + 1) (intRepr i ++ k) = some (Json.num i, k)
    obtain ⟨c, t, hct, hdig⟩ := intRepr_head i
    obtain ⟨f1, f2, f3, f4, f5, f6, fws⟩ := num_head_facts c hdig
    have hpn : parseNum (c :: (t ++ k)) = some (Json.num i, k) := by
      rw [← List.cons_append, ← hct]
      exact parseNum_intRepr i k hk
    rw [hct, List.cons_append, parseValue, skipWs_cons c (t ++ k) fws]
    simp [f1, f2, f3, f4, f5, f6, hpn]
  | str s =>
    show parseValue (n + 1) ('"' :: ((escList s.data ++ ['"']) ++ k)) =
      some (Json.str s, k)
    have hshape : (escList s.data ++ ['"']) ++ k = escList s.data ++ '"' :: k := by simp
    rw [parseValue, skipWs_cons '"' _ (by decide), hshape]
    simp [parseStringBody_escList, string_mk_data]
  | arr xs =>
    cases xs with
    | nil =>
      show parseValue (n + 1 + 1) ('[' :: ']' :: k) = some (Json.arr [], k)
      rw [parseValue]
      simp [skipWs, isJsonWs]
    | cons v xs' =>
      show parseValue (n + fuelE (v :: xs') + 1)
          ('[' :: ((dumpElems (v :: xs') ++ [']']) ++ k)) = some (Json.arr (v :: xs'), k)
      have helems := parse_dumpElems (v :: xs') (by simp) n [] k
      obtain ⟨c, t, hct, hws, hnb⟩ := jsonDumps_head v
      have hde : ∃ u, dumpElems (v :: xs') = c :: u := by
        cases xs' with
        | nil => exact ⟨t, by simp [dumpElems, hct]⟩
        | cons w ws => exact ⟨t ++ ',' :: ' ' :: dumpElems (w :: ws), by
            simp [dumpElems, hct]⟩
      obtain ⟨u, hu⟩ := hde
      have hX : (dumpElems (v :: xs') ++ [']']) ++ k = dumpElems (v :: xs') ++ ']' :: k := by
        simp
      have hrest : parseElems (n + fuelE (v :: xs')) (c :: (u ++ ']' :: k)) [] =
          some (Json.arr ([] ++ (v :: xs')), k) := by
        rw [← List.cons_append, ← hu]
        exact helems
      rw [parseValue, skipWs_cons '[' _ (by decide), hX, hu, List.cons_append]
      simp only [skipWs, hws, Bool.false_eq_true, if_false, Char.reduceEq, reduceIte]
      split
      · rename_i r heq
        exfalso
        rw [List.cons_eq_cons] at heq
        exact hnb heq.1
      · exact hrest.trans (by simp)
  | obj fs =>
    cases fs with
    | nil =>
      show parseValue (n + 1 + 1) ('\x7b' :: '\x7d' :: k) = some (Json.obj [], k)
      rw [parseValue]
      simp [skipWs, isJsonWs]
    | cons kv fs' =>
      obtain ⟨key, v⟩ := kv
      show parseValue (n + fuelF ((key, v) :: fs') + 1)
          ('\x7b' :: ((dumpMembers ((key, v) :: fs') ++ ['\x7d']) ++ k)) =
        some (Json.obj ((key, v) :: fs'), k)
      have hmem := parse_dumpMembers ((key, v) :: fs') (by simp) n [] k
      obtain ⟨t, ht⟩ := dumpMembers_head key v fs'
      have hX : (dumpMembers ((key, v) :: fs') ++ ['\x7d']) ++ k =
          dumpMembers ((key, v) :: fs') ++ '\x7d' :: k := by simp
      have hrest : parseMembers (n + fuelF ((key, v) :: fs')) ('"' :: (t ++ '\x7d' :: k)) [] =
          some (Json.obj ([] ++ ((key, v) :: fs')), k) := by
        rw [← List.cons_append, ← ht]
        exact hmem
      rw [parseValue, skipWs_cons '\x7b' _ (by decide), hX, ht, List.cons_append]
      simp [skipWs, isJsonWs, hrest]
termination_by sizeOf v

theorem parse_dumpMembers (fs : List (String × Json)) (hne : fs ≠ []) (n : Nat)
    (acc : List (String × Json)) (k : List Char) :
    parseMembers (n + fuelF fs) (dumpMembers fs ++ '\x7d' :: k) acc =
      some (Json.obj (acc ++ fs), k) := by
  match fs with
  | [] => exact absurd rfl hne
  | [(key, v)] =>
    show parseMembers (n + (fuelJ v + 1) + 1)
        ((('"' :: (escList key.data ++ ['"'])) ++ (':' :: ' ' :: jsonDumps v)) ++
          '\x7d' :: k) acc = some (Json.obj (acc ++ [(key, v)]), k)
    have hshape : ((('"' :: (escList key.data ++ ['"'])) ++ (':' :: ' ' :: jsonDumps v)) ++
        '\x7d' :: k) = '"' :: (escList key.data ++
          '"' :: ':' :: ' ' :: (jsonDumps v ++ '\x7d' :: k)) := by
      simp
    have hval : parseValue (n + (fuelJ v + 1)) (jsonDumps v ++ '\x7d' :: k) =
        some (v, '\x7d' :: k) := by
      have hf : n + (fuelJ v + 1) = (n + 1) + fuelJ v := by omega
      rw [hf]
      exact parse_dump v (n + 1) ('\x7d' :: k) (numBoundary_brace k)
    rw [hshape, parseMembers, skipWs_cons '"' _ (by decide)]
    simp [parseStringBody_escList, skipWs, isJsonWs, parseValue_ws, hval,
      string_mk_data]
  | (key, v) :: (kv2 :: fs2) =>
    show parseMembers (n + (fuelJ v + fuelF (kv2 :: fs2)) + 1)
        (((('"' :: (escList key.data ++ ['"'])) ++ (':' :: ' ' :: jsonDumps v) ++
          (',' :: ' ' :: dumpMembers (kv2 :: fs2)))) ++
          '\x7d' :: k) acc = some (Json.obj (acc ++ ((key, v) :: kv2 :: fs2)), k)
    have hshape : (((('"' :: (escList key.data ++ ['"'])) ++ (':' :: ' ' :: jsonDumps v) ++
        (',' :: ' ' :: dumpMembers (kv2 :: fs2)))) ++
          '\x7d' :: k) = '"' :: (escList key.data ++ '"' :: ':' :: ' ' ::
            (jsonDumps v ++ ',' :: ' ' :: (dumpMembers (kv2 :: fs2) ++ '\x7d' :: k))) := by
      simp
    have hval : parseValue (n + (fuelJ v + fuelF (kv2 :: fs2)))
        (jsonDumps v ++ ',' :: ' ' :: (dumpMembers (kv2 :: fs2) ++ '\x7d' :: k)) =
        some (v, ',' :: ' ' :: (dumpMembers (kv2 :: fs2) ++ '\x7d' :: k)) := by
      have hf : n + (fuelJ v + fuelF (kv2 :: fs2)) = (n + fuelF (kv2 :: fs2)) + fuelJ v := by
        omega
      rw [hf]
      exact parse_dump v (n + fuelF (kv2 :: fs2)) _ (numBoundary_comma _)
    have hrec : parseMembers (n + (fuelJ v + fuelF (kv2 :: fs2)))
        (' ' :: (dumpMembers (kv2 :: fs2) ++ '\x7d' :: k))
        (acc ++ [(key, v)]) = some (Json.obj ((acc ++ [(key, v)]) ++ (kv2 :: fs2)), k) := by
      rw [parseMembers_ws]
      have hf : n + (fuelJ v + fuelF (kv2 :: fs2)) = (n + fuelJ v) + fuelF (kv2 :: fs2) := by
        omega
      rw [hf]
      exact parse_dumpMembers (kv2 :: fs2) (by simp) (n + fuelJ v) (acc ++ [(key, v)]) k
    rw [hshape, parseMembers, skipWs_cons '"' _ (by decide)]
    simp [parseStringBody_escList, skipWs, isJsonWs, parseValue_ws, hval, hrec,
      string_mk_data]
termination_by sizeOf fs

theorem parse_dumpElems (xs : List Json) (hne : xs ≠ []) (n : Nat)
    (acc : List Json) (k : List Char) :
    parseElems (n + fuelE xs) (dumpElems xs ++ ']' :: k) acc =
      some (Json.arr (acc ++ xs), k) := by
  match xs with
  | [] => exact absurd rfl hne
  | [v] =>
    show parseElems (n + (fuelJ v + 1) + 1) (jsonDumps v ++ ']' :: k) acc =
      some (Json.arr (acc ++ [v]), k)
    have hval : parseValue (n + (fuelJ v + 1)) (jsonDumps v ++ ']' :: k) =
        some (v, ']' :: k) := by
      have hf : n + (fuelJ v + 1) = (n + 1) + fuelJ v := by omega
      rw [hf]
      exact parse_dump v (n + 1) (']' :: k) (numBoundary_bracket k)
    rw [parseElems]
    simp [hval, skipWs, isJsonWs]
  | v :: (w :: ws) =>
    show parseElems (n + (fuelJ v + fuelE (w :: ws)) + 1)
        ((jsonDumps v ++ ',' :: ' ' :: dumpElems (w :: ws)) ++ ']' :: k) acc =
      some (Json.arr (acc ++ (v :: w :: ws)), k)
    have hshape : (jsonDumps v ++ ',' :: ' ' :: dumpElems (w :: ws)) ++ ']' :: k =
        jsonDumps v ++ ',' :: ' ' :: (dumpElems (w :: ws) ++ ']' :: k) := by simp
    have hval : parseValue (n + (fuelJ v + fuelE (w :: ws)))
        (jsonDumps v ++ ',' :: ' ' :: (dumpElems (w :: ws) ++ ']' :: k)) =
        some (v, ',' :: ' ' :: (dumpElems (w :: ws) ++ ']' :: k)) := by
      have hf : n + (fuelJ v + fuelE (w :: ws)) = (n + fuelE (w :: ws)) + fuelJ v := by omega
      rw [hf]
      exact parse_dump v (n + fuelE (w :: ws)) _ (numBoundary_comma _)
    have hrec : parseElems (n + (fuelJ v + fuelE (w :: ws)))
        (' ' :: (dumpElems (w :: ws) ++ ']' :: k)) (acc ++ [v]) =
        some (Json.arr ((acc ++ [v]) ++ (w :: ws)), k) := by
      have hws2 : parseElems (n + (fuelJ v + fuelE (w :: ws)))
          (' ' :: (dumpElems (w :: ws) ++ ']' :: k)) (acc ++ [v]) =
          parseElems (n + (fuelJ v + fuelE (w :: ws)))
            (dumpElems (w :: ws) ++ ']' :: k) (acc ++ [v]) := by
        cases hn : n + (fuelJ v + fuelE (w :: ws)) with
        | zero => rfl
        | succ m => rw [parseElems, parseElems, parseValue_ws]
      rw [hws2]
      have hf : n + (fuelJ v + fuelE (w :: ws)) = (n + fuelJ v) + fuelE (w :: ws) := by omega
      rw [hf]
      exact parse_dumpElems (w :: ws) (by simp) (n + fuelJ v) (acc ++ [v]) k
    rw [hshape, parseElems]
    simp [hval, hrec, skipWs, isJsonWs]
termination_by sizeOf xs

end

/-- Model of StreamReader.readline: read up to and including the first
newline, or the whole remainder at end of input; return the line and the
unread rest. -/
def readlineAux : List Char → List Char × List Char
  | [] => ([], [])
  | c :: rest =>
    if c = '\n' then ([c], rest)
    else
      let p := readlineAux rest
      (c :: p.1, p.2)

/-- readline splits the input: line and rest recombine to it. -/
theorem readlineAux_split : ∀ input : List Char,
    (readlineAux input).1 ++ (readlineAux input).2 = input := by
  intro input
  induction input with
  | nil => rfl
  | cons c rest ih =>
    by_cases h : c = '\n'
    · simp [readlineAux, h]
    · simp [readlineAux, h, ih]

/-- Reading one newline-terminated line off the front of a stream. -/
theorem readlineAux_line (l : List Char) (hl : ∀ c ∈ l, ¬ c = '\n') :
    ∀ rest, readlineAux (l ++ '\n' :: rest) = (l ++ ['\n'], rest) := by
  induction l with
  | nil => intro rest; simp [readlineAux]
  | cons c cs ih =>
    intro rest
    have hc : ¬ c = '\n' := hl c (by simp)
    have hcs : ∀ x ∈ cs, ¬ x = '\n' := fun x hx => hl x (by simp [hx])
    simp [readlineAux, hc, ih hcs rest]

/-- Source sbt.py lines 234 to 241: accumulate header lines until the
blank CRLF line.  When the stream is exhausted mid-headers the Python
loop reads empty strings forever; the model reports that divergence as
the blockedForever error. -/
def readHeadersGo (input : List Char) (acc : List (List Char)) :
    Except PyErr (List (List Char) × List Char) :=
  if h1 : (readlineAux input).1 = ['\r', '\n'] then .ok (acc, (readlineAux input).2)
  else if h2 : (readlineAux input).1 = [] then .error .blockedForever
  else readHeadersGo (readlineAux input).2 (acc ++ [(readlineAux input).1])
termination_by input.length
decreasing_by
  have heq := readlineAux_split input
  have hlen : (readlineAux input).1.length + (readlineAux input).2.length = input.length := by
    rw [← List.length_append, heq]
  have h1len : (readlineAux input).1.length ≠ 0 := by simpa using h2
  omega

/-- Source sbt.py lines 234 to 241: the header block reader. -/
def _read_headers (input : List Char) : Except PyErr (List (List Char) × List Char) :=
  readHeadersGo input []

/-- Python str.split on a colon separator: split at every colon. -/
def splitOnColon : List Char → List (List Char)
  | [] => [[]]
  | c :: rest =>
    match splitOnColon rest with
    | [] => [[]]
    | p :: ps => if c = ':' then [] :: p :: ps else (c :: p) :: ps

/-- Splitting a colon-free string yields one part. -/
theorem splitOnColon_no (l : List Char) (h : ∀ c ∈ l, ¬ c = ':') :
    splitOnColon l = [l] := by
  induction l with
  | nil => rfl
  | cons c cs ih =>
    have hc : ¬ c = ':' := h c (by simp)
    have hcs : ∀ x ∈ cs, ¬ x = ':' := fun x hx => h x (by simp [hx])
    simp [splitOnColon, ih hcs, hc]

/-- Splitting never yields an empty list of parts. -/
theorem splitOnColon_ne_nil : ∀ l : List Char, splitOnColon l ≠ [] := by
  intro l
  induction l with
  | nil => simp [splitOnColon]
  | cons c cs ih =>
    rw [splitOnColon]
    rcases h : splitOnColon cs with _ | ⟨p, ps⟩
    · simp
    · by_cases hc : c = ':' <;> simp [hc]

/-- Splitting at the first colon after a colon-free prefix. -/
theorem splitOnColon_first (k : List Char) (hk : ∀ c ∈ k, ¬ c = ':') :
    ∀ v, splitOnColon (k ++ ':' :: v) = k :: splitOnColon v := by
  induction k with
  | nil =>
    intro v
    rw [List.nil_append, splitOnColon]
    rcases h : splitOnColon v with _ | ⟨p, ps⟩
    · exact absurd h (splitOnColon_ne_nil v)
    · simp
  | cons c cs ih =>
    intro v
    have hc : ¬ c = ':' := hk c (by simp)
    have hcs : ∀ x ∈ cs, ¬ x = ':' := fun x hx => hk x (by simp [hx])
    rw [List.cons_append, splitOnColon, ih hcs v]
    simp [hc]

/-- Python str.strip with its default whitespace set. -/
def pyStrip (l : List Char) : List Char :=
  ((l.dropWhile isPySpace).reverse.dropWhile isPySpace).reverse

/-- Test that every character is a decimal digit. -/
def allDigits (l : List Char) : Bool := l.all isDigitCh

/-- Model of Python int() on an already stripped string: an optional
sign followed by decimal digits.  (Python additionally permits
underscore separators between digits, which never occur in this
protocol and are not modelled.) -/
def pyInt : List Char → Except PyErr Int
  | [] => .error (.valueError "invalid literal for int")
  | c :: rest =>
    if c = '-' then
      if rest ≠ [] ∧ allDigits rest then .ok (-(digitsToNat rest : Int))
      else .error (.valueError "invalid literal for int")
    else if c = '+' then
      if rest ≠ [] ∧ allDigits rest then .ok (digitsToNat rest)
      else .error (.valueError "invalid literal for int")
    else if allDigits (c :: rest) then .ok (digitsToNat (c :: rest))
    else .error (.valueError "invalid literal for int")

/-- Source sbt.py lines 226 to 231: split a header line on colons and
unpack into exactly a key and a value; trim the value, coercing it to an
int for the Content-Length key.  A line with more or fewer than one
colon makes the tuple unpacking raise ValueError.  The str-or-int value
is modelled as a Json scalar. -/
def _parse_header (header : List Char) : Except PyErr (String × Json) :=
  match splitOnColon header with
  | [key, value] =>
    if String.mk key = "Content-Length" then
      (pyInt (pyStrip value)).map (fun n => (String.mk key, Json.num n))
    else .ok (String.mk key, Json.str (String.mk (pyStrip value)))
  | _ => .error (.valueError "unpacking mismatch: header does not split into key and value")

/-- Source sbt.py lines 222 to 223: parse every header line and build
the header dict. -/
def _parse_headers : List (List Char) → Except PyErr (List (String × Json))
  | [] => .ok []
  | h :: rest => do
    let kv ← _parse_header h
    let d ← _parse_headers rest
    pure (kv :: d)

/-- Source sbt.py lines 244 to 245: StreamReader.readexactly of the
declared body length, then UTF-8 decoding.  A negative size raises
ValueError; a stream with fewer characters left raises
IncompleteReadError (the model's input is the whole remaining stream, so
a shortage is end of input). -/
def _read_body (content_length : Int) (input : List Char) :
    Except PyErr (List Char × List Char) :=
  if content_length < 0 then
    .error (.valueError "readexactly size can not be less than zero")
  else if input.length < content_length.toNat then .error .incompleteRead
  else .ok (input.take content_length.toNat, input.drop content_length.toNat)

/-- Source sbt.py lines 248 to 250: parse a body as JSON. -/
def _parse_body (content : List Char) : Except PyErr Json := jsonLoads content

/-- Source sbt.py lines 210 to 219: read the header block, extract the
Content-Length entry (KeyError when absent), read exactly that many
characters and parse them as the next message.  The unread remainder of
the stream is returned alongside.  The typeError branch is unreachable:
_parse_header always coerces the Content-Length value to an int. -/
def get_next_message (input : List Char) : Except PyErr (Json × List Char) := do
  let hs ← _read_headers input
  let headers ← _parse_headers hs.1
  match dictGet headers "Content-Length" with
  | some (Json.num n) => do
    let body ← _read_body n hs.2
    let doc ← _parse_body body.1
    pure (doc, body.2)
  | some _ => .error (.typeError "Content-Length value is not an int")
  | none => .error (.keyError "Content-Length")

/-- The JSON document of an exec request body (the dict literal in
sbt.py lines 172 to 182). -/
def bodyVal (command_id : Int) (sbt_command : String) : Json :=
  .obj [("jsonrpc", .str "2.0"), ("id", .num command_id),
        ("method", .str "sbt/exec"),
        ("params", .obj [("commandLine", .str sbt_command)])]

/-- Source sbt.py lines 172 to 182: the serialized request body. -/
def _body (command_id : Int) (sbt_command : String) : List Char :=
  jsonDumps (bodyVal command_id sbt_command)

/-- Source sbt.py lines 167 to 169: the two header lines, with the
given number interpolated as the Content-Length value. -/
def _header (length : Nat) : List Char :=
  "Content-Type: application/vscode-jsonrpc; charset=utf-8\r\n".data ++
  "Content-Length: ".data ++ natRepr length ++ "\r\n".data

/-- Source sbt.py lines 153 to 164: frame an exec request.  The command
is prefixed with reload, the declared Content-Length is the character
count of the body plus two, and the body is followed by a trailing
CRLF. -/
def create_exec_request (command_id : Int) (sbt_command : String) : List Char :=
  _header ((_body command_id ("reload;" ++ sbt_command)).length + 2) ++
  "\r\n".data ++ _body command_id ("reload;" ++ sbt_command) ++ "\r\n".data

/-- The Content-Type header line this client always sends. -/
def ctLine : List Char :=
  "Content-Type: application/vscode-jsonrpc; charset=utf-8\r\n".data

/-- The Content-Length header line carrying the given number. -/
def clLine (N : Nat) : List Char :=
  "Content-Length: ".data ++ natRepr N ++ "\r\n".data

/-- The outbound header block is those two lines. -/
theorem header_eq_lines (N : Nat) : _header N = ctLine ++ clLine N := by
  simp [_header, ctLine, clLine]

/-- A digit is not in Python's strip set. -/
theorem isPySpace_false_of_digit (c : Char) (h : isDigitCh c = true) :
    isPySpace c = false := by
  have := isDigitCh_val c h
  simp only [isPySpace, Bool.or_eq_false_iff, decide_eq_false_iff_not]
  omega

/-- Stripping a space-led, CRLF-terminated digit string yields the digits. -/
theorem pyStrip_digits (ds : List Char) (hne : ds ≠ [])
    (hall : ∀ c ∈ ds, isDigitCh c = true) :
    pyStrip (' ' :: (ds ++ ['\r', '\n'])) = ds := by
  rcases hds : ds with _ | ⟨d, ds'⟩
  · exact absurd hds hne
  subst hds
  have hd : isPySpace d = false := isPySpace_false_of_digit d (hall d (by simp))
  have h1 : List.dropWhile isPySpace (' ' :: ((d :: ds') ++ ['\r', '\n'])) =
      (d :: ds') ++ ['\r', '\n'] := by
    rw [List.dropWhile_cons, if_pos (by decide), List.cons_append, List.dropWhile_cons,
      if_neg (by simp [hd])]
  rw [pyStrip, h1, List.reverse_append]
  have h2 : List.dropWhile isPySpace (['\r', '\n'].reverse ++ (d :: ds').reverse) =
      List.dropWhile isPySpace ((d :: ds').reverse) := by
    rw [show (['\r', '\n'] : List Char).reverse = ['\n', '\r'] from rfl, List.cons_append,
      List.dropWhile_cons, if_pos (by decide), List.cons_append, List.nil_append,
      List.dropWhile_cons, if_pos (by decide)]
  rw [h2]
  rcases hrev : (d :: ds').reverse with _ | ⟨e, es⟩
  · simp at hrev
  · have he : e ∈ d :: ds' := by
      rw [← List.mem_reverse, hrev]; simp
    have hef : isPySpace e = false := isPySpace_false_of_digit e (hall e he)
    rw [List.dropWhile_cons, if_neg (by simp [hef]), ← hrev, List.reverse_reverse]

/-- Python int() on a decimal rendering recovers the number. -/
theorem pyInt_natRepr (N : Nat) : pyInt (natRepr N) = .ok (N : Int) := by
  rcases hnr : natRepr N with _ | ⟨c, cs⟩
  · exact absurd hnr (natRepr_ne_nil N)
  have hall := natRepr_all_digits N
  rw [hnr] at hall
  have hc := isDigitCh_val c (hall c (by simp))
  have hm : ¬ c = '-' := char_ne_of_toNat_ne _ _
    (by have e : ('-').toNat = 45 := rfl; omega)
  have hp : ¬ c = '+' := char_ne_of_toNat_ne _ _
    (by have e : ('+').toNat = 43 := rfl; omega)
  have had : allDigits (c :: cs) = true := by
    simp only [allDigits, List.all_eq_true]
    exact fun x hx => hall x hx
  have hval : digitsToNat (c :: cs) = N := by rw [← hnr, digitsToNat_natRepr]
  simp [pyInt, hm, hp, had, hval]

/-- Reading the header block of an outbound frame yields its two header
lines and leaves the rest of the stream unread. -/
theorem read_headers_frame (N : Nat) (tail : List Char) :
    _read_headers (_header N ++ '\r' :: '\n' :: tail) =
      .ok ([ctLine, clLine N], tail) := by
  have hCTnoNL : ∀ c ∈ "Content-Type: application/vscode-jsonrpc; charset=utf-8\r".data,
      ¬ c = '\n' := by decide
  have hCLnoNL : ∀ c ∈ ("Content-Length: ".data ++ (natRepr N ++ ['\r'])), ¬ c = '\n' := by
    intro c hc
    have hclp : ∀ x ∈ "Content-Length: ".data, ¬ x = '\n' := by decide
    rcases List.mem_append.mp hc with hc | hc
    · exact hclp c hc
    · rcases List.mem_append.mp hc with hc | hc
      · have := isDigitCh_val c (natRepr_all_digits N c hc)
        exact char_ne_of_toNat_ne _ _ (by have e : ('\n').toNat = 10 := rfl; omega)
      · rw [List.mem_singleton] at hc
        subst hc
        decide
  have hnrlen : natRepr N ≠ [] := natRepr_ne_nil N
  have hshape : _header N ++ '\r' :: '\n' :: tail =
      "Content-Type: application/vscode-jsonrpc; charset=utf-8\r".data ++
        '\n' :: (clLine N ++ '\r' :: '\n' :: tail) := by
    rw [header_eq_lines]
    simp only [List.append_assoc]
    rfl
  have hline1 := readlineAux_line _ hCTnoNL (clLine N ++ '\r' :: '\n' :: tail)
  have hline1ct : "Content-Type: application/vscode-jsonrpc; charset=utf-8\r".data ++
      ['\n'] = ctLine := by decide
  have hshape2 : clLine N ++ '\r' :: '\n' :: tail =
      ("Content-Length: ".data ++ (natRepr N ++ ['\r'])) ++ '\n' :: ('\r' :: '\n' :: tail) := by
    simp [clLine, List.append_assoc]
  have hline2 := readlineAux_line _ hCLnoNL ('\r' :: '\n' :: tail)
  have hline2cl : ("Content-Length: ".data ++ (natRepr N ++ ['\r'])) ++ ['\n'] =
      clLine N := by
    simp [clLine, List.append_assoc]
  have hclne : ¬ clLine N = ['\r', '\n'] := by
    intro h
    have := congrArg List.length h
    simp [clLine] at this
  have hctne : ¬ ctLine = ['\r', '\n'] := by decide
  have hctnil : ¬ ctLine = [] := by decide
  have hclnil : ¬ clLine N = [] := by
    intro h
    have := congrArg List.length h
    simp [clLine] at this
  rw [_read_headers, readHeadersGo, hshape]
  rw [hline1, hline1ct]
  rw [dif_neg hctne, dif_neg hctnil, readHeadersGo, hshape2, hline2, hline2cl]
  rw [dif_neg hclne, dif_neg hclnil, readHeadersGo]
  have hline3 : readlineAux ('\r' :: '\n' :: tail) = (['\r', '\n'], tail) := rfl
  rw [hline3, dif_pos rfl]
  rfl

/-- Parsing the two outbound header lines produces the header dict with
the declared Content-Length coerced to an int. -/
theorem parse_headers_frame (N : Nat) :
    _parse_headers [ctLine, clLine N] =
      .ok [("Content-Type", Json.str "application/vscode-jsonrpc; charset=utf-8"),
           ("Content-Length", Json.num (N : Int))] := by
  have hct : _parse_header ctLine =
      .ok ("Content-Type", Json.str "application/vscode-jsonrpc; charset=utf-8") := by
    rfl
  have hclshape : clLine N = "Content-Length".data ++ ':' ::
      (' ' :: (natRepr N ++ ['\r', '\n'])) := by
    rw [clLine]
    rw [show ("Content-Length: ".data : List Char) =
      "Content-Length".data ++ [':', ' '] from rfl]
    simp [List.append_assoc]
  have hnocolon : ∀ c ∈ ' ' :: (natRepr N ++ ['\r', '\n']), ¬ c = ':' := by
    intro c hc
    rcases List.mem_cons.mp hc with hc | hc
    · subst hc; decide
    · rcases List.mem_append.mp hc with hc | hc
      · have := isDigitCh_val c (natRepr_all_digits N c hc)
        exact char_ne_of_toNat_ne _ _ (by have e : (':').toNat = 58 := rfl; omega)
      · rcases List.mem_cons.mp hc with hc | hc
        · subst hc; decide
        · rw [List.mem_singleton] at hc; subst hc; decide
  have hkeynocolon : ∀ c ∈ ("Content-Length".data : List Char), ¬ c = ':' := by decide
  have hcl : _parse_header (clLine N) = .ok ("Content-Length", Json.num (N : Int)) := by
    rw [hclshape, _parse_header, splitOnColon_first _ hkeynocolon,
      splitOnColon_no _ hnocolon]
    simp only [if_pos (show String.mk "Content-Length".data = "Content-Length" from rfl)]
    rw [pyStrip_digits (natRepr N) (natRepr_ne_nil N) (natRepr_all_digits N),
      pyInt_natRepr]
    rfl
  rw [_parse_headers, hct]
  rw [_parse_headers, hcl]
  rfl

/-- Boundary fact for a CRLF continuation after a JSON body. -/
theorem numBoundary_crlf : numBoundary ['\r', '\n'] :=
  ⟨by decide, by decide, by decide, by decide⟩

/-- The fuel needed to parse any exec request body. -/
theorem fuelJ_bodyVal (i : Int) (s : String) : fuelJ (bodyVal i s) = 13 := rfl

/-- The serialized body is at least five characters long. -/
theorem body_length_ge (i : Int) (s : String) : 5 ≤ (_body i s).length := by
  simp [_body, bodyVal, jsonDumps, dumpMembers, encodeString]
  omega

/-- json.loads of the serialized body with its trailing CRLF recovers
the body document. -/
theorem parse_body_frame (i : Int) (s : String) :
    _parse_body (_body i s ++ ['\r', '\n']) = .ok (bodyVal i s) := by
  have hblen := body_length_ge i s
  have hkey : (_body i s ++ ['\r', '\n']).length + 8 =
      ((_body i s).length - 3) + fuelJ (bodyVal i s) := by
    have h5 := body_length_ge i s
    rw [fuelJ_bodyVal]
    simp only [List.length_append]
    simp
    omega
  rw [_parse_body, jsonLoads, hkey]
  rw [show (_body i s : List Char) = jsonDumps (bodyVal i s) from rfl]
  rw [parse_dump (bodyVal i s) _ ['\r', '\n'] numBoundary_crlf]
  simp [skipWs, isJsonWs]

/-- Reading the declared number of characters consumes the body and its
trailing CRLF exactly. -/
theorem read_body_frame (i : Int) (s : String) :
    _read_body (((_body i s).length + 2 : Nat) : Int) (_body i s ++ ['\r', '\n']) =
      .ok (_body i s ++ ['\r', '\n'], []) := by
  have hlen : (_body i s ++ ['\r', '\n']).length = (_body i s).length + 2 := by simp
  rw [_read_body, if_neg (by omega), Int.toNat_natCast, if_neg (by omega), ← hlen,
    List.take_length, List.drop_length]


/-- Bind on a successful Except reduces to the continuation. -/
theorem except_bind_ok {alpha beta : Type} (a : alpha) (f : alpha → Except PyErr beta) :
    (Except.ok a >>= f : Except PyErr beta) = f a := rfl

/-- Pure in the Except monad is ok. -/
theorem except_pure {alpha : Type} (a : alpha) :
    (pure a : Except PyErr alpha) = Except.ok a := rfl

theorem get_next_message_frame (i : Int) (s : String) :
    get_next_message (_header ((_body i s).length + 2) ++ "\r\n".data ++
      _body i s ++ "\r\n".data) = .ok (bodyVal i s, []) := by
  have hcrlf : ("\r\n".data : List Char) = ['\r', '\n'] := rfl
  have hshape : _header ((_body i s).length + 2) ++ "\r\n".data ++
      _body i s ++ "\r\n".data =
      _header ((_body i s).length + 2) ++
        '\r' :: '\n' :: (_body i s ++ ['\r', '\n']) := by
    rw [hcrlf]
    simp [List.append_assoc]
  have hdict : dictGet
      [("Content-Type", Json.str "application/vscode-jsonrpc; charset=utf-8"),
       ("Content-Length", Json.num (((_body i s).length + 2 : Nat) : Int))]
      "Content-Length" = some (Json.num (((_body i s).length + 2 : Nat) : Int)) := rfl
  rw [hshape]
  simp only [get_next_message, read_headers_frame, except_bind_ok,
    parse_headers_frame, hdict, read_body_frame, parse_body_frame, except_pure]

/-- C2: framing round trip.  Feeding the bytes of an outbound exec
request back through the inbound decoder yields a document whose
jsonrpc, id, method and params.commandLine entries equal those of the
original request body, with nothing left unread. -/
theorem sbt_C2_framing_roundtrip (i : Int) (cmd : String) :
    ∃ doc, get_next_message (create_exec_request i cmd) = .ok (doc, []) ∧
      jsonSubscript doc "jsonrpc" = .ok (Json.str "2.0") ∧
      jsonSubscript doc "id" = .ok (Json.num i) ∧
      jsonSubscript doc "method" = .ok (Json.str "sbt/exec") ∧
      ∃ p, jsonSubscript doc "params" = .ok p ∧
        jsonSubscript p "commandLine" = .ok (Json.str ("reload;" ++ cmd)) :=
  ⟨bodyVal i ("reload;" ++ cmd), get_next_message_frame i ("reload;" ++ cmd),
    rfl, rfl, rfl,
    ⟨Json.obj [("commandLine", Json.str ("reload;" ++ cmd))], rfl, rfl⟩⟩

/-- C4: the body built by the outbound framer is exactly the JSON
document with the four entries jsonrpc 2.0, the request id, method
sbt/exec, and params.commandLine holding the command string prefixed
with reload; nothing else.  Stated through the independent inbound
parser: parsing the serialized body yields exactly that document.
(The serialization uses json.dumps default separators, i.e. a space
after each colon and comma.) -/
theorem sbt_C4_body_document (i : Int) (cmd : String) :
    jsonLoads (_body i ("reload;" ++ cmd)) =
      .ok (Json.obj [("jsonrpc", Json.str "2.0"), ("id", Json.num i),
        ("method", Json.str "sbt/exec"),
        ("params", Json.obj [("commandLine", Json.str ("reload;" ++ cmd))])]) := by
  have hblen := body_length_ge i ("reload;" ++ cmd)
  have hkey : (_body i ("reload;" ++ cmd)).length + 8 =
      ((_body i ("reload;" ++ cmd)).length - 5) + fuelJ (bodyVal i ("reload;" ++ cmd)) := by
    rw [fuelJ_bodyVal]
    omega
  rw [jsonLoads, hkey]
  have hb : jsonDumps (bodyVal i ("reload;" ++ cmd)) ++ [] = _body i ("reload;" ++ cmd) := by
    simp [_body]
  rw [← hb, parse_dump (bodyVal i ("reload;" ++ cmd)) _ [] trivial]
  simp [skipWs, bodyVal]

/-- Byte length of one character prepended to a sequence. -/
theorem utf8Len_cons (c : Char) (l : List Char) :
    utf8Len (c :: l) = pyUtf8Size c + utf8Len l := rfl

/-- Byte length distributes over concatenation. -/
theorem utf8Len_append (a b : List Char) :
    utf8Len (a ++ b) = utf8Len a + utf8Len b := by
  induction a with
  | nil => simp [utf8Len]
  | cons c cs ih => rw [List.cons_append, utf8Len_cons, utf8Len_cons, ih]; omega

/-- An ASCII character occupies one byte. -/
theorem pyUtf8Size_eq_one (c : Char) (h : c.toNat ≤ 127) : pyUtf8Size c = 1 := by
  simp [pyUtf8Size, h]

/-- On ASCII sequences the byte length is the character count. -/
theorem utf8Len_ascii (l : List Char) (h : ∀ c ∈ l, c.toNat ≤ 127) :
    utf8Len l = l.length := by
  induction l with
  | nil => rfl
  | cons c cs ih =>
    rw [utf8Len_cons, pyUtf8Size_eq_one c (h c (by simp)),
      ih (fun x hx => h x (by simp [hx])), List.length_cons]
    omega

/-- Hex digit characters are ASCII. -/
theorem hexDigitCh_ascii : ∀ m, m < 16 → (hexDigitCh m).toNat ≤ 127 := by decide

/-- Every character of a hex escape block is ASCII. -/
theorem hex4_ascii (n : Nat) : ∀ x ∈ hex4 n, x.toNat ≤ 127 := by
  intro x hx
  rw [hex4] at hx
  simp only [List.mem_cons, List.not_mem_nil, or_false] at hx
  rcases hx with hx | hx | hx | hx <;>
    (subst hx; exact hexDigitCh_ascii _ (Nat.mod_lt _ (by omega)))

/-- The escape of any character consists of ASCII characters only
(this is exactly what ensure_ascii guarantees). -/
theorem escapeChar_ascii (c : Char) : ∀ x ∈ escapeChar c, x.toNat ≤ 127 := by
  intro x hx
  rw [escapeChar] at hx
  by_cases h1 : c = '"'
  · rw [if_pos h1] at hx
    rcases List.mem_cons.mp hx with hx | hx
    · subst hx; decide
    · rw [List.mem_singleton] at hx; subst hx; decide
  rw [if_neg h1] at hx
  by_cases h2 : c = '\\'
  · rw [if_pos h2] at hx
    rcases List.mem_cons.mp hx with hx | hx
    · subst hx; decide
    · rw [List.mem_singleton] at hx; subst hx; decide
  rw [if_neg h2] at hx
  by_cases h3 : c = '\n'
  · rw [if_pos h3] at hx
    rcases List.mem_cons.mp hx with hx | hx
    · subst hx; decide
    · rw [List.mem_singleton] at hx; subst hx; decide
  rw [if_neg h3] at hx
  by_cases h4 : c = '\r'
  · rw [if_pos h4] at hx
    rcases List.mem_cons.mp hx with hx | hx
    · subst hx; decide
    · rw [List.mem_singleton] at hx; subst hx; decide
  rw [if_neg h4] at hx
  by_cases h5 : c = '\t'
  · rw [if_pos h5] at hx
    rcases List.mem_cons.mp hx with hx | hx
    · subst hx; decide
    · rw [List.mem_singleton] at hx; subst hx; decide
  rw [if_neg h5] at hx
  by_cases h6 : c.toNat = 8
  · rw [if_pos h6] at hx
    rcases List.mem_cons.mp hx with hx | hx
    · subst hx; decide
    · rw [List.mem_singleton] at hx; subst hx; decide
  rw [if_neg h6] at hx
  by_cases h7 : c.toNat = 12
  · rw [if_pos h7] at hx
    rcases List.mem_cons.mp hx with hx | hx
    · subst hx; decide
    · rw [List.mem_singleton] at hx; subst hx; decide
  rw [if_neg h7] at hx
  by_cases h8 : 32 ≤ c.toNat ∧ c.toNat ≤ 126
  · rw [if_pos h8] at hx
    rw [List.mem_singleton] at hx
    subst hx
    omega
  rw [if_neg h8] at hx
  by_cases h9 : c.toNat < 65536
  · rw [if_pos h9] at hx
    rcases List.mem_cons.mp hx with hx | hx
    · subst hx; decide
    rcases List.mem_cons.mp hx with hx | hx
    · subst hx; decide
    · exact hex4_ascii _ x hx
  · rw [if_neg h9] at hx
    rcases List.mem_append.mp hx with hx | hx
    · rcases List.mem_cons.mp hx with hx | hx
      · subst hx; decide
      rcases List.mem_cons.mp hx with hx | hx
      · subst hx; decide
      · exact hex4_ascii _ x hx
    · rcases List.mem_cons.mp hx with hx | hx
      · subst hx; decide
      rcases List.mem_cons.mp hx with hx | hx
      · subst hx; decide
      · exact hex4_ascii _ x hx

/-- Escaped string bodies are ASCII. -/
theorem escList_ascii (l : List Char) : ∀ x ∈ escList l, x.toNat ≤ 127 := by
  intro x hx
  rw [escList, List.mem_flatten] at hx
  obtain ⟨part, hpart, hxin⟩ := hx
  rw [List.mem_map] at hpart
  obtain ⟨c, _, hc⟩ := hpart
  exact escapeChar_ascii c x (hc ▸ hxin)

/-- Serialized strings are ASCII. -/
theorem encodeString_ascii (s : String) : ∀ x ∈ encodeString s, x.toNat ≤ 127 := by
  intro x hx
  rw [encodeString] at hx
  rcases List.mem_cons.mp hx with hx | hx
  · subst hx; decide
  rcases List.mem_append.mp hx with hx | hx
  · exact escList_ascii _ x hx
  · rw [List.mem_singleton] at hx; subst hx; decide

/-- Decimal digit strings are ASCII. -/
theorem natRepr_ascii (n : Nat) : ∀ x ∈ natRepr n, x.toNat ≤ 127 := by
  intro x hx
  have := isDigitCh_val x (natRepr_all_digits n x hx)
  omega

/-- Rendered integers are ASCII. -/
theorem intRepr_ascii (i : Int) : ∀ x ∈ intRepr i, x.toNat ≤ 127 := by
  intro x hx
  cases i with
  | ofNat m => exact natRepr_ascii m x hx
  | negSucc m =>
    rcases List.mem_cons.mp hx with hx | hx
    · subst hx; decide
    · exact natRepr_ascii (m + 1) x hx

mutual

/-- json.dumps output is ASCII (the ensure_ascii default). -/
theorem jsonDumps_ascii (v : Json) : ∀ x ∈ jsonDumps v, x.toNat ≤ 127 := by
  intro x hx
  cases v with
  | null => revert hx; revert x; decide
  | bool b => cases b <;> (revert hx; revert x; decide)
  | num i => exact intRepr_ascii i x hx
  | str s => exact encodeString_ascii s x hx
  | arr xs =>
    rw [jsonDumps] at hx
    rcases List.mem_cons.mp hx with hx | hx
    · subst hx; decide
    rcases List.mem_append.mp hx with hx | hx
    · exact dumpElems_ascii xs x hx
    · rw [List.mem_singleton] at hx; subst hx; decide
  | obj fs =>
    rw [jsonDumps] at hx
    rcases List.mem_cons.mp hx with hx | hx
    · subst hx; decide
    rcases List.mem_append.mp hx with hx | hx
    · exact dumpMembers_ascii fs x hx
    · rw [List.mem_singleton] at hx; subst hx; decide

/-- Dumped array elements are ASCII. -/
theorem dumpElems_ascii (xs : List Json) : ∀ x ∈ dumpElems xs, x.toNat ≤ 127 := by
  intro x hx
  match xs with
  | [] => cases hx
  | [v] => exact jsonDumps_ascii v x hx
  | v :: w :: rest =>
    rw [dumpElems] at hx
    rcases List.mem_append.mp hx with hx | hx
    · exact jsonDumps_ascii v x hx
    rcases List.mem_cons.mp hx with hx | hx
    · subst hx; decide
    rcases List.mem_cons.mp hx with hx | hx
    · subst hx; decide
    · exact dumpElems_ascii (w :: rest) x hx

/-- Dumped object members are ASCII. -/
theorem dumpMembers_ascii (fs : List (String × Json)) :
    ∀ x ∈ dumpMembers fs, x.toNat ≤ 127 := by
  intro x hx
  match fs with
  | [] => cases hx
  | [(key, v)] =>
    rw [dumpMembers] at hx
    rcases List.mem_append.mp hx with hx | hx
    · exact encodeString_ascii key x hx
    rcases List.mem_cons.mp hx with hx | hx
    · subst hx; decide
    rcases List.mem_cons.mp hx with hx | hx
    · subst hx; decide
    · exact jsonDumps_ascii v x hx
  | (key, v) :: kv2 :: fs2 =>
    rw [dumpMembers] at hx
    rcases List.mem_append.mp hx with hx | hx
    · rcases List.mem_append.mp hx with hx | hx
      · exact encodeString_ascii key x hx
      rcases List.mem_cons.mp hx with hx | hx
      · subst hx; decide
      rcases List.mem_cons.mp hx with hx | hx
      · subst hx; decide
      · exact jsonDumps_ascii v x hx
    rcases List.mem_cons.mp hx with hx | hx
    · subst hx; decide
    rcases List.mem_cons.mp hx with hx | hx
    · subst hx; decide
    · exact dumpMembers_ascii (kv2 :: fs2) x hx

end

/-- The byte length of a serialized body equals its character count:
the body is pure ASCII, which is what lets the source use the Python
str length as a byte count. -/
theorem utf8Len_body (i : Int) (s : String) :
    utf8Len (_body i s) = (_body i s).length :=
  utf8Len_ascii _ (jsonDumps_ascii (bodyVal i s))

/-- Reading the header block of a framed exec request. -/
theorem read_headers_request (i : Int) (cmd : String) :
    _read_headers (create_exec_request i cmd) =
      .ok ([ctLine, clLine ((_body i ("reload;" ++ cmd)).length + 2)],
        _body i ("reload;" ++ cmd) ++ ['\r', '\n']) := by
  have hcrlf : ("\r\n".data : List Char) = ['\r', '\n'] := rfl
  have hshape : create_exec_request i cmd =
      _header ((_body i ("reload;" ++ cmd)).length + 2) ++
        '\r' :: '\n' :: (_body i ("reload;" ++ cmd) ++ ['\r', '\n']) := by
    rw [create_exec_request, hcrlf]
    simp [List.append_assoc]
  rw [hshape]
  exact read_headers_frame _ _

/-- C3 counterexample: for the example request with id 7 and command
line reload;compile, the body has byte length 94, yet the frame is
built from the header block declaring Content-Length 96, which differs
from the header block that would declare the body byte length 94.  The
claim that the declared Content-Length equals the byte length of the
body it frames is therefore false. -/
theorem sbt_C3_counterexample :
    utf8Len (_body 7 "reload;compile") = 94 ∧
    create_exec_request 7 "compile" =
      _header (utf8Len (_body 7 "reload;compile") + 2) ++ "\r\n".data ++
        _body 7 "reload;compile" ++ "\r\n".data ∧
    _header (utf8Len (_body 7 "reload;compile") + 2) ≠
      _header (utf8Len (_body 7 "reload;compile")) := by
  have e7 : intRepr 7 = ['7'] := by
    rw [show intRepr 7 = natRepr 7 from rfl, natRepr_small 7 (by omega)]
    decide
  have hbody : _body 7 "reload;compile" =
      ("\x7b\"jsonrpc\": \"2.0\", \"id\": 7, \"method\": \"sbt/exec\", \"params\": \x7b\"commandLine\": \"reload;compile\"\x7d\x7d").data := by
    rw [show (_body 7 "reload;compile" : List Char) =
      jsonDumps (bodyVal 7 "reload;compile") from rfl]
    simp only [bodyVal, jsonDumps, dumpMembers, encodeString, e7]
    decide
  have hu : utf8Len (_body 7 "reload;compile") = 94 := by rw [hbody]; decide
  have e96 : natRepr 96 = ['9', '6'] := by
    rw [natRepr_step 96 (by omega), natRepr_small 9 (by omega)]
    decide
  have e94 : natRepr 94 = ['9', '4'] := by
    rw [natRepr_step 94 (by omega), natRepr_small 9 (by omega)]
    decide
  refine ⟨hu, ?_, ?_⟩
  · rw [create_exec_request,
      show ("reload;" ++ "compile" : String) = "reload;compile" from rfl, hu,
      show (_body 7 "reload;compile").length = 94 from by rw [hbody]; decide]
  · rw [hu]
    intro h
    rw [header_eq_lines, header_eq_lines, clLine, clLine, e96, e94] at h
    have h2 := List.append_cancel_left h
    exact absurd h2 (by decide)

/-- C3 amended: the Content-Length the outbound framer declares is the
byte length of the JSON body plus two, counting the trailing CRLF that
follows the body (the body is pure ASCII, so Python's character count
matches its byte count); stated through the inbound header parser
applied to the produced frame. -/
theorem sbt_C3_amended_content_length (i : Int) (cmd : String) :
    ∃ hs d, _read_headers (create_exec_request i cmd) = .ok hs ∧
      _parse_headers hs.1 = .ok d ∧
      dictGet d "Content-Length" =
        some (Json.num ((utf8Len (_body i ("reload;" ++ cmd)) + 2 : Nat) : Int)) := by
  refine ⟨([ctLine, clLine ((_body i ("reload;" ++ cmd)).length + 2)],
      _body i ("reload;" ++ cmd) ++ ['\r', '\n']),
    [("Content-Type", Json.str "application/vscode-jsonrpc; charset=utf-8"),
     ("Content-Length", Json.num (((_body i ("reload;" ++ cmd)).length + 2 : Nat) : Int))],
    read_headers_request i cmd, parse_headers_frame _, ?_⟩
  rw [utf8Len_body]
  rfl

/-- C5 counterexample: a well-formed header line whose value itself
contains a colon makes the header parser raise ValueError from the
two-way tuple unpacking (str.split splits at every colon, not just the
first), instead of parsing it into the key and the full remaining
value. -/
theorem sbt_C5_counterexample :
    _parse_header "X-Time: 12:30\r\n".data =
      .error (.valueError "unpacking mismatch: header does not split into key and value") ∧
    _parse_header "X-Time: 12:30\r\n".data ≠ .ok ("X-Time", Json.str "12:30") := by
  constructor
  · rfl
  · intro h
    rw [show _parse_header "X-Time: 12:30\r\n".data =
      .error (.valueError "unpacking mismatch: header does not split into key and value")
      from rfl] at h
    exact Except.noConfusion h

/-- C5 amended: the header parser splits a line at every colon and
requires exactly one; a line with exactly one colon is parsed into its
key and its whitespace-trimmed value, coerced to an int when the key is
Content-Length, while any additional colon (in particular one inside
the value) makes the unpacking raise ValueError. -/
theorem sbt_C5_amended_single_colon (key value : List Char)
    (hkey : ∀ c ∈ key, ¬ c = ':') (hval : ∀ c ∈ value, ¬ c = ':') :
    _parse_header (key ++ ':' :: value) =
      if String.mk key = "Content-Length" then
        (pyInt (pyStrip value)).map (fun n => (String.mk key, Json.num n))
      else .ok (String.mk key, Json.str (String.mk (pyStrip value))) := by
  rw [_parse_header, splitOnColon_first key hkey value, splitOnColon_no value hval]

/-- Witness for the amended C5 at a concrete single-colon header line. -/
theorem sbt_C5_witness :
    _parse_header ("X-Header".data ++ ':' :: " a\r\n".data) =
      .ok ("X-Header", Json.str "a") := by
  rw [sbt_C5_amended_single_colon "X-Header".data " a\r\n".data (by decide) (by decide)]
  rfl

/-- C10: both separator spaces of the interpolated command string are
inserted unconditionally, so an empty argument list leaves two
consecutive spaces and an empty file list leaves a trailing space; and
exactly this string, prefixed with reload and a semicolon, is the
commandLine of the framed request (stated by decoding the frame the
dispatcher would send). -/
theorem sbt_C10_unconditional_separators (i : Int) (entry : String)
    (args files : List String) :
    _sbt_command entry [] files = entry ++ "  " ++ spaceJoin (files.map _quote) ∧
    _sbt_command entry args [] = entry ++ " " ++ spaceJoin args ++ " " ∧
    ∃ doc p,
      get_next_message (create_exec_request i (_sbt_command entry args files)) =
        .ok (doc, []) ∧
      jsonSubscript doc "params" = .ok p ∧
      jsonSubscript p "commandLine" =
        .ok (Json.str ("reload;" ++ (entry ++ " " ++ spaceJoin args ++ " " ++
          spaceJoin (files.map _quote)))) := by
  refine ⟨?_, ?_,
    bodyVal i ("reload;" ++ _sbt_command entry args files),
    Json.obj [("commandLine", Json.str ("reload;" ++ _sbt_command entry args files))],
    get_next_message_frame i ("reload;" ++ _sbt_command entry args files), rfl, rfl⟩
  · show entry ++ " " ++ spaceJoin [] ++ " " ++ spaceJoin (files.map _quote) =
      entry ++ "  " ++ spaceJoin (files.map _quote)
    rw [show spaceJoin [] = "" from rfl, String.append_empty, String.append_assoc entry]
    rfl
  · show entry ++ " " ++ spaceJoin args ++ " " ++ spaceJoin ([].map _quote) =
      entry ++ " " ++ spaceJoin args ++ " "
    rw [show spaceJoin ([].map _quote) = "" from rfl, String.append_empty]
